import Mathlib

/-!
# Verification of `tools/sync-components.js`

A shallow embedding of the component-documentation synchronisation script.
Paths are modelled as lists of segments (`path.resolve a b` becomes list
append, `path.dirname` becomes `List.dropLast`).  The filesystem is a record
of directory paths, file entries and preset sidecar values.  Asynchronous
promise execution is modelled by the deterministic order in which the
script's callbacks run on the single JavaScript thread: promise executors
run synchronously at construction time; the local lanes' `.then`
processors run in the following microtask turn, before any download
macrotask; `Promise.all` rejects with the first settled rejection, whose
failure handler cleans and exits at once, so a lane still awaiting its
download never settles; remote download completions are modelled as
macrotasks arriving in queue order.

External collaborators that live in this repository but outside the provided
sources (`tools/util.js`, `tools/components.js`, `tools/cli-reporter.js`)
are modelled from the spec where noted.
-/

namespace SyncComponents

/-- A filesystem path, as its list of segments. -/
abbrev Path := List String

/-- Render a path as a string, the way the script interpolates paths into
messages. -/
def pathStr (p : Path) : String := String.intercalate ("/") p

/-- Modelled from the spec: the result of `util.parseMarkdown` (§3
  `ParsedDocument`, §6 `parse(text) -> {title, content, deps}`), the
  markdown parsing utility being outside the provided sources.  A parsed
  document is a title, the body content, and the declared dependencies. -/
structure ParsedDoc where
  title : String
  content : String
  deps : List String
deriving DecidableEq, Repr

/-- The `setting` object assembled by the processors (sync-components.js
lines 65-70 / 114-119): dependencies, component name, preset, preview. -/
structure Setting where
  deps : List String
  name : String
  preset : Option String
  preview : Bool
deriving DecidableEq, Repr

/-- The argument of `util.toMarkdown`: restored title, body content, and the
structured settings block. -/
structure OutputDoc where
  title : String
  content : String
  setting : Setting
deriving DecidableEq, Repr

/-- File contents.  A source markdown file is identified by what it parses
to (the parse/serialize pair is a black box per the spec, §6); a file
produced by `util.toMarkdown` carries its structured form; anything else is
opaque text. -/
inductive FileContent where
  | source (d : ParsedDoc)
  | output (d : OutputDoc)
  | other (text : String)
deriving DecidableEq, Repr

/-- Modelled from the spec: `util.parseMarkdown` (§6), treated as an opaque
parse that recovers title, content and dependencies. -/
def parseMarkdown : FileContent → ParsedDoc
  | .source d => d
  | .output d => { title := d.title, content := d.content, deps := d.setting.deps }
  | .other t => { title := t, content := "", deps := [] }

/-- Modelled from the spec: `util.toMarkdown` (§6 `serialize({title,
content, setting}) -> text`), treated as an opaque serialisation of exactly
the given title, content and settings block. -/
def toMarkdown (title : String) (content : String) (setting : Setting) : FileContent :=
  .output { title := title, content := content, setting := setting }

/-- Association lookup on path-keyed lists (first match wins, matching the
shadowing behaviour of prepending writes). -/
def assocFind (p : Path) : List (Path × α) → Option α
  | [] => none
  | (q, a) :: rest => if q = p then some a else assocFind p rest

/-- The filesystem: existing directories, file entries, and preset sidecar
values keyed by the directory holding them. -/
structure FS where
  dirs : List Path
  files : List (Path × FileContent)
  presets : List (Path × String)
deriving DecidableEq, Repr

/-- Model of `util.isDirectory`: whether the path is an existing directory. -/
def isDirectory (fs : FS) (p : Path) : Bool := fs.dirs.contains p

/-- Model of `util.fileExists`: whether a file exists at the path. -/
def fileExists (fs : FS) (p : Path) : Bool := (assocFind p fs.files).isSome

/-- Model of `fs.readFileSync`, as an optional read. -/
def readFile (fs : FS) (p : Path) : Option FileContent := assocFind p fs.files

/-- Modelled from the spec: `util.readPreset` (§6 `readPreset(directoryPath)
-> value|undefined`), the preset reader being outside the provided sources.
It reads the optional preset value attached to a source directory; absence
is valid. -/
def readPreset (fs : FS) (dir : Path) : Option String := assocFind dir fs.presets

/-- Model of `fs.writeFileSync`: write a file, shadowing any previous entry. -/
def writeFile (fs : FS) (p : Path) (c : FileContent) : FS :=
  { fs with files := (p, c) :: fs.files }

/-- Model of `mkdirp.sync`: ensure a directory exists. -/
def mkdirpSync (fs : FS) (p : Path) : FS :=
  { fs with dirs := p :: fs.dirs }

/-- Whether `p` lies at or below `base`. -/
def underPath (base p : Path) : Bool := decide (p.take base.length = base)

/-- Model of `rimraf.sync`: remove the path and everything below it. -/
def rimrafSync (fs : FS) (base : Path) : FS :=
  { dirs := fs.dirs.filter (fun d => !underPath base d)
    files := fs.files.filter (fun f => !underPath base f.1)
    presets := fs.presets.filter (fun f => !underPath base f.1) }

/-! ## Fixed paths (sync-components.js lines 24, 32, 42, 91, 137-140, 223) -/

/-- The constant `BASE_URL`: the repository root (`path.resolve(__dirname, '..')`). -/
def BASE_URL : Path := ["base"]

/-- The constant `TOOLS_PATH`: the tools directory used for temporary downloads. -/
def TOOLS_PATH : Path := BASE_URL ++ ["tools"]

/-- The current working directory against which CLI paths resolve. -/
def CWD : Path := ["cwd"]

/-- The path `path.resolve(TOOLS_PATH, 'mip-master')` (line 42). -/
def coreMasterPath : Path := TOOLS_PATH ++ ["mip-master"]

/-- The path `path.resolve(TOOLS_PATH, 'mip-extensions-master')` (line 91). -/
def extensionsMasterPath : Path := TOOLS_PATH ++ ["mip-extensions-master"]

/-- The `source/examples` directory deleted at line 223. -/
def examplesPath : Path := BASE_URL ++ ["source", "examples"]

/-- The four fixed temporary paths removed by `clean` (lines 136-141). -/
def cleanTargets : List Path :=
  [TOOLS_PATH ++ ["mip-extensions-master.zip"],
   TOOLS_PATH ++ ["mip-extensions-master"],
   TOOLS_PATH ++ ["mip-master.zip"],
   TOOLS_PATH ++ ["mip-master"]]

/-- The function `clean` (lines 135-144): remove the four temporary paths. -/
def cleanFS (fs : FS) : FS := cleanTargets.foldl rimrafSync fs

/-! ## Component manifest -/

/-- Modelled from the spec: a manifest record of `tools/components.js` (§3
`ComponentRecord`, §4.1), the manifest module being outside the provided
sources.  `preview = none` models the `undefined` preview field. -/
structure ComponentRecord where
  name : String
  readme : Path
  output : Path
  preview : Option Bool
deriving DecidableEq, Repr

/-- The preview value serialized for a record:
`val.preview === undefined ? true : !!val.preview` (lines 69 / 118). -/
def previewValue : Option Bool → Bool
  | none => true
  | some b => b

/-! ## Document processor

`coreProcessor` (lines 40-81) and `extensionsProcessor` (lines 89-130) are
verbatim duplicates up to the master path and record list; `processRecord`
is the body of the per-record promise executor (lines 49-76 / 98-125),
which runs synchronously at construction time. -/

/-- Events observable during a run: reporter output, filesystem writes,
acquisition steps, cleanup, and process exit. -/
inductive Ev where
  | info (msg : String)
  | error (msg : String)
  | write (p : Path) (c : FileContent)
  | copyDir (src dst : Path)
  | downloadStart (url : String) (file : Path)
  | unzipFile (file : Path)
  | removeExamples
  | clean
  | exit (code : Nat)
deriving DecidableEq, Repr

/-- One record's processing (lines 49-76): resolve paths, reject if the
markdown file is missing, else parse, read the preset, ensure the output
directory, write the serialized document, and log success. -/
def processRecord (masterPath : Path) (fs : FS) (val : ComponentRecord) :
    FS × List Ev × Option String :=
  let markdownFile := masterPath ++ val.readme
  let outputFilePath := BASE_URL ++ ["source"] ++ val.output
  if !fileExists fs markdownFile then
    (fs, [], some (pathStr markdownFile ++ " 不存在"))
  else
    let data := parseMarkdown ((readFile fs markdownFile).getD (.other ("")))
    let preset := readPreset fs markdownFile.dropLast
    let fs := mkdirpSync fs outputFilePath.dropLast
    let doc := toMarkdown data.title data.content
      { deps := data.deps, name := val.name, preset := preset
        preview := previewValue val.preview }
    let fs := writeFile fs outputFilePath doc
    (fs, [Ev.write outputFilePath doc, Ev.info (pathStr val.output ++ " 同步成功")], none)

/-- First-rejection semantics of `Promise.all` over promises that settled
synchronously in index order. -/
def mergeErr : Option String → Option String → Option String
  | some e, _ => some e
  | none, e => e

/-- The `components.get*().map(...)` loop: each record's promise executor
runs synchronously, in manifest order, threading the filesystem; the
aggregate fails with the first rejection. -/
def processRecords (masterPath : Path) (fs : FS) :
    List ComponentRecord → FS × List Ev × Option String
  | [] => (fs, [], none)
  | val :: rest =>
    let r1 := processRecord masterPath fs val
    let r2 := processRecords masterPath r1.1 rest
    (r2.1, r1.2.1 ++ r2.2.1, mergeErr r1.2.2 r2.2.2)

/-- A group processor (lines 40-81 / 89-130): reject if the acquisition
directory is missing, else process every record. -/
def groupProcessor (masterPath : Path) (recs : List ComponentRecord) (fs : FS) :
    FS × List Ev × Option String :=
  if !isDirectory fs masterPath then
    (fs, [], some (pathStr masterPath ++ " 不存在"))
  else
    processRecords masterPath fs recs

/-- The function `coreProcessor` (lines 40-81), over a given core manifest. -/
def coreProcessor (recs : List ComponentRecord) (fs : FS) : FS × List Ev × Option String :=
  groupProcessor coreMasterPath recs fs

/-- The function `extensionsProcessor` (lines 89-130), over a given extensions manifest. -/
def extensionsProcessor (recs : List ComponentRecord) (fs : FS) : FS × List Ev × Option String :=
  groupProcessor extensionsMasterPath recs fs

/-! ## Local directory copy (`copy-dir`)

The local acquisition strategy copies a directory tree with the filter
`(stat, filepath, filename) => !(stat === 'directory' && filename ===
'node_modules')` (lines 163 / 199).  Source trees outside the working area
are modelled as explicit trees. -/

/-- A directory tree entry of a local source directory. -/
inductive FTree where
  | file (name : String) (content : FileContent)
  | dir (name : String) (children : List FTree)
deriving Repr

/-- The `stat` discriminator passed to the copy filter. -/
inductive Stat where
  | directory
  | file
deriving DecidableEq, Repr

/-- The filter passed to `copydir.sync` (lines 163 / 199):
`!(stat === 'directory' && filename === 'node_modules')`. -/
def copyFilter (stat : Stat) (_filepath : Path) (filename : String) : Bool :=
  !(stat == Stat.directory && filename == "node_modules")

/-- A filter that keeps everything (the behaviour of extracting a
downloaded archive, which is not filtered). -/
def keepAll (_stat : Stat) (_filepath : Path) (_filename : String) : Bool := true

mutual
/-- The per-entry step of `copydir.sync`'s recursive walk: ask the filter,
copy a kept file, recurse into a kept directory (a filtered directory is
pruned whole).  Returns copied files (with tree-relative paths) and created
directories. -/
def copyTree (filter : Stat → Path → String → Bool) (rel : Path) :
    FTree → List (Path × FileContent) × List Path
  | .file name c =>
    if filter .file (rel ++ [name]) name then ([(rel ++ [name], c)], []) else ([], [])
  | .dir name kids =>
    if filter .directory (rel ++ [name]) name then
      let sub := copyForest filter (rel ++ [name]) kids
      (sub.1, (rel ++ [name]) :: sub.2)
    else ([], [])
/-- The walk of `copydir.sync` over a directory's entries, in order. -/
def copyForest (filter : Stat → Path → String → Bool) (rel : Path) :
    List FTree → List (Path × FileContent) × List Path
  | [] => ([], [])
  | t :: ts =>
    let a := copyTree filter rel t
    let b := copyForest filter rel ts
    (a.1 ++ b.1, a.2 ++ b.2)
end

/-- The call `copydir.sync(src, dst, filter)` applied to our filesystem: install the
filtered copy of the tree at `dst`. -/
def copydirSync (fs : FS) (tree : List FTree) (dst : Path) : FS :=
  let e := copyForest copyFilter [] tree
  { fs with
    dirs := dst :: e.2.map (dst ++ ·) ++ fs.dirs
    files := e.1.map (fun pc => (dst ++ pc.1, pc.2)) ++ fs.files }

/-- Model of `util.unzipFile` landing a downloaded archive's tree at `dst`
(unfiltered). -/
def installTree (fs : FS) (tree : List FTree) (dst : Path) : FS :=
  let e := copyForest keepAll [] tree
  { fs with
    dirs := dst :: e.2.map (dst ++ ·) ++ fs.dirs
    files := e.1.map (fun pc => (dst ++ pc.1, pc.2)) ++ fs.files }

mutual
/-- The reference description of the filter's effect on one entry: a
directory named `node_modules` vanishes, any other directory is kept with
its children pruned recursively, a file is kept. -/
def pruneTree : FTree → List FTree
  | .file name c => [.file name c]
  | .dir name kids =>
    if name = "node_modules" then [] else [.dir name (pruneForest kids)]
/-- Drop every directory named `node_modules` at any depth; keep every
other entry. -/
def pruneForest : List FTree → List FTree
  | [] => []
  | t :: ts => pruneTree t ++ pruneForest ts
end

/-! ## Run orchestrator (lines 146-231) -/

/-- A local source directory named by a CLI flag: the flag's path (relative
to the working directory) and, when the directory exists, its tree. -/
structure LocalSrc where
  flagPath : Path
  content : Option (List FTree)

/-- A run configuration: CLI flags, the two manifests, the trees the two
remote archives extract to, and the initial filesystem. -/
structure Config where
  core : Option LocalSrc
  extensions : Option LocalSrc
  coreRecs : List ComponentRecord
  extensionsRecs : List ComponentRecord
  remoteCore : List FTree
  remoteExtensions : List FTree
  fs : FS

/-- Orchestrator state: the filesystem and the trace of events so far. -/
structure St where
  fs : FS
  trace : List Ev
deriving Repr

/-- Append one event. -/
def emit (st : St) (e : Ev) : St := { st with trace := st.trace ++ [e] }

/-- The outcome of a finished run. -/
structure RunResult where
  trace : List Ev
  fs : FS
  exitCode : Nat
deriving Repr

/-- The core archive URL (line 177). -/
def coreUrl : String := "https://github.com/mipengine/mip/archive/master.zip"

/-- The extensions archive URL (line 212). -/
def extensionsUrl : String := "https://github.com/mipengine/mip-extensions/archive/master.zip"

/-- The path `path.resolve(TOOLS_PATH, 'mip-master.zip')` (line 178). -/
def coreZipPath : Path := TOOLS_PATH ++ ["mip-master.zip"]

/-- The path `path.resolve(TOOLS_PATH, 'mip-extensions-master.zip')` (line 213). -/
def extensionsZipPath : Path := TOOLS_PATH ++ ["mip-extensions-master.zip"]

/-- Lines 150-183: the synchronous part of queueing the core lane.  A bad
`--core` path reports an error and exits immediately; a good local path is
copied (synchronously, inside the promise executor); without the flag the
remote download is started.  Returns the early-exit result, or the state
and whether the lane is remote. -/
def setupCore (cfg : Config) (st : St) : Except RunResult (St × Bool) :=
  match cfg.core with
  | some la =>
    let localCoreDir := CWD ++ la.flagPath
    match la.content with
    | none =>
      .error { trace := st.trace ++
                 [Ev.error ("本地 core 目录不存在：" ++ pathStr localCoreDir), Ev.exit 1]
               fs := st.fs, exitCode := 1 }
    | some tree =>
      let st := emit st (Ev.info ("加载本地的 core 目录：" ++ pathStr localCoreDir))
      .ok ({ fs := copydirSync st.fs tree coreMasterPath
             trace := st.trace ++ [Ev.copyDir localCoreDir coreMasterPath] }, false)
  | none =>
    .ok (emit st (Ev.downloadStart coreUrl coreZipPath), true)

/-- Lines 186-218: the synchronous part of queueing the extensions lane. -/
def setupExtensions (cfg : Config) (st : St) : Except RunResult (St × Bool) :=
  match cfg.extensions with
  | some la =>
    let localExtensionsDir := CWD ++ la.flagPath
    match la.content with
    | none =>
      .error { trace := st.trace ++
                 [Ev.error ("本地 extensions 目录不存在：" ++ pathStr localExtensionsDir), Ev.exit 1]
               fs := st.fs, exitCode := 1 }
    | some tree =>
      let st := emit st (Ev.info ("加载本地的 extensions 目录：" ++ pathStr localExtensionsDir))
      .ok ({ fs := copydirSync st.fs tree extensionsMasterPath
             trace := st.trace ++ [Ev.copyDir localExtensionsDir extensionsMasterPath] }, false)
  | none =>
    .ok (emit st (Ev.downloadStart extensionsUrl extensionsZipPath), true)

/-- The whole synchronous phase: queue both lanes (lines 146-218), print the
start banner (line 220), delete `source/examples` (line 223).  Early exits
(`process.exit(1)` at lines 154 / 190) abort before the banner and the
deletion. -/
def setupPhase (cfg : Config) : Except RunResult (St × Bool × Bool) :=
  match setupCore cfg { fs := cfg.fs, trace := [] } with
  | .error r => .error r
  | .ok (st, coreRemote) =>
    match setupExtensions cfg st with
    | .error r => .error r
    | .ok (st, extRemote) =>
      let st := emit st (Ev.info ("开始同步组件文档!\n"))
      .ok ({ fs := rimrafSync st.fs examplesPath
             trace := st.trace ++ [Ev.removeExamples] }, coreRemote, extRemote)

/-- The asynchronous completion of the core lane's acquisition: for a
remote lane the archive download finishes (`util.downGit`) and is extracted
(`util.unzipFile`); a local lane's copy already happened synchronously. -/
def coreAcquire (cfg : Config) (remote : Bool) (st : St) : St :=
  if remote then
    let fs := writeFile st.fs coreZipPath (.other ("mip-master.zip"))
    { fs := installTree fs cfg.remoteCore coreMasterPath
      trace := st.trace ++ [Ev.write coreZipPath (.other ("mip-master.zip")),
                            Ev.unzipFile coreZipPath] }
  else st

/-- The asynchronous completion of the extensions lane's acquisition. -/
def extensionsAcquire (cfg : Config) (remote : Bool) (st : St) : St :=
  if remote then
    let fs := writeFile st.fs extensionsZipPath (.other ("mip-extensions-master.zip"))
    { fs := installTree fs cfg.remoteExtensions extensionsMasterPath
      trace := st.trace ++ [Ev.write extensionsZipPath (.other ("mip-extensions-master.zip")),
                            Ev.unzipFile extensionsZipPath] }
  else st

/-! ## The main phase

After the synchronous phase the event loop takes over.  Its order is:

* Microtask turn (phase B): a local lane's promise was already resolved
  during queue construction, so its `.then` processor runs now, before any
  download macrotask can complete; with two local lanes both processors run,
  in queue order (core, then extensions), before `Promise.all`'s handlers.
* `Promise.all(queue)` rejects with the first rejection in settlement
  order.  If a lane settled in the microtask turn rejected, the `catch`
  handler (line 227-230: log the error, `clean()`, `process.exit(1)`) runs
  immediately, and a still-pending remote lane never settles: its download
  completion, extraction and processing never happen.
* Macrotask turns (phase C): otherwise each remote lane's download
  completes (modelled in queue order), is extracted, and its processor
  runs; again a rejection triggers the `catch` handler at once, and a
  remote lane still pending behind it never settles.
* If every lane resolved, `clean()` runs and the success banner is printed
  (exit code 0 implicit). -/

/-- Whether a local-path flag passes the eager `util.isDirectory` check
(lines 152 / 188): no flag, or a flag naming an existing directory. -/
def localOk : Option LocalSrc → Bool
  | none => true
  | some la => la.content.isSome

/-- The state after the synchronous phase (defaults to the initial state on
an early exit). -/
def stageSt (cfg : Config) : St :=
  match setupPhase cfg with
  | .error _ => { fs := cfg.fs, trace := [] }
  | .ok (st, _, _) => st

/-- Microtask turn, core lane: a local core lane's processor runs now; a
remote core lane is still downloading and does nothing. -/
def bCore (cfg : Config) : St × Option String :=
  if cfg.core.isNone then (stageSt cfg, none)
  else
    let rc := coreProcessor cfg.coreRecs (stageSt cfg).fs
    ({ fs := rc.1, trace := (stageSt cfg).trace ++ rc.2.1 }, rc.2.2)

/-- The state after the core lane's microtask turn. -/
def bCoreSt (cfg : Config) : St := (bCore cfg).1

/-- The core lane's rejection from the microtask turn, if any. -/
def bCoreErr (cfg : Config) : Option String := (bCore cfg).2

/-- Microtask turn, extensions lane: a local extensions lane's processor
runs now (even when the core lane already rejected — its microtask was
queued before the rejection propagated); a remote lane does nothing. -/
def bExt (cfg : Config) : St × Option String :=
  if cfg.extensions.isNone then (bCoreSt cfg, none)
  else
    let re := extensionsProcessor cfg.extensionsRecs (bCoreSt cfg).fs
    ({ fs := re.1, trace := (bCoreSt cfg).trace ++ re.2.1 }, re.2.2)

/-- The state after the microtask turn. -/
def bExtSt (cfg : Config) : St := (bExt cfg).1

/-- The extensions lane's rejection from the microtask turn, if any. -/
def bExtErr (cfg : Config) : Option String := (bExt cfg).2

/-- The first rejection among the lanes that settled in the microtask turn,
in settlement (queue) order.  When it is present, `Promise.all` rejects
with it before any download macrotask can run. -/
def localErr (cfg : Config) : Option String := mergeErr (bCoreErr cfg) (bExtErr cfg)

/-- The filesystem the core processor receives in the macrotask phase,
after the downloaded core archive has been written and extracted. -/
def cCoreFS (cfg : Config) : FS := (coreAcquire cfg true (bExtSt cfg)).fs

/-- Macrotask turn, core lane: when the core lane is remote (and it is
reached at all), its download completes, the archive is extracted and the
core processor runs. -/
def cCore (cfg : Config) : St × Option String :=
  if cfg.core.isNone then
    let rc := coreProcessor cfg.coreRecs (cCoreFS cfg)
    ({ fs := rc.1, trace := (coreAcquire cfg true (bExtSt cfg)).trace ++ rc.2.1 }, rc.2.2)
  else (bExtSt cfg, none)

/-- The state after the core lane's macrotask turn. -/
def cCoreSt (cfg : Config) : St := (cCore cfg).1

/-- The core lane's rejection from the macrotask turn, if any. -/
def cCoreErr (cfg : Config) : Option String := (cCore cfg).2

/-- The filesystem the extensions processor receives in the macrotask
phase, after the downloaded extensions archive has been written and
extracted. -/
def cExtFS (cfg : Config) : FS := (extensionsAcquire cfg true (cCoreSt cfg)).fs

/-- Macrotask turn, extensions lane: when the extensions lane is remote
(and it is reached at all), its download completes, the archive is
extracted and the extensions processor runs. -/
def cExt (cfg : Config) : St × Option String :=
  if cfg.extensions.isNone then
    let re := extensionsProcessor cfg.extensionsRecs (cExtFS cfg)
    ({ fs := re.1, trace := (extensionsAcquire cfg true (cCoreSt cfg)).trace ++ re.2.1 }, re.2.2)
  else (cCoreSt cfg, none)

/-- The state after the extensions lane's macrotask turn. -/
def cExtSt (cfg : Config) : St := (cExt cfg).1

/-- The extensions lane's rejection from the macrotask turn, if any. -/
def cExtErr (cfg : Config) : Option String := (cExt cfg).2

/-- The failure handler (lines 227-230): log the error, run `clean`, exit
with code 1. -/
def failResult (st : St) (e : String) : RunResult :=
  { trace := st.trace ++ [Ev.error e, Ev.clean, Ev.exit 1]
    fs := cleanFS st.fs
    exitCode := 1 }

/-- The main phase (lines 225-231): the microtask turn settles the local
lanes; the first rejection fires the failure handler at once, leaving any
pending remote lane unsettled; otherwise the remote lanes complete in
queue order, each rejection again firing the failure handler immediately;
if every lane resolves, `clean` runs and the success banner is printed. -/
def mainResult (cfg : Config) : RunResult :=
  match localErr cfg with
  | some e => failResult (bExtSt cfg) e
  | none =>
    match cCoreErr cfg with
    | some e => failResult (cCoreSt cfg) e
    | none =>
      match cExtErr cfg with
      | some e => failResult (cExtSt cfg) e
      | none =>
        { trace := (cExtSt cfg).trace ++ [Ev.clean, Ev.info ("\n同步成功!\n")]
          fs := cleanFS (cExtSt cfg).fs
          exitCode := 0 }

/-- A whole run of the script (lines 146-231): the synchronous phase (an
invalid local-path flag exits immediately), then the main phase. -/
def run (cfg : Config) : RunResult :=
  match setupPhase cfg with
  | .error r => r
  | .ok _ => mainResult cfg

/-- The document a record's processing serializes: parsed title and
content, dependencies, the record name, the preset and the preview flag
(lines 62-71 / 111-120). -/
def procDoc (masterPath : Path) (fs : FS) (val : ComponentRecord) : FileContent :=
  let data := parseMarkdown ((readFile fs (masterPath ++ val.readme)).getD (.other ("")))
  toMarkdown data.title data.content
    { deps := data.deps, name := val.name
      preset := readPreset fs (masterPath ++ val.readme).dropLast
      preview := previewValue val.preview }

/-- The events a record's processing can emit. -/
def recordBlock (masterPath : Path) (fs : FS) (val : ComponentRecord) : List Ev :=
  (processRecord masterPath fs val).2.1

/-- The first record of the list whose source markdown file is missing. -/
def firstMissing (masterPath : Path) (fs : FS) (recs : List ComponentRecord) :
    Option ComponentRecord :=
  recs.find? (fun r => !fileExists fs (masterPath ++ r.readme))

/-- Events the synchronous queue-construction phase can emit. -/
def isSetupEv : Ev → Bool
  | .info _ => true
  | .copyDir _ _ => true
  | .downloadStart _ _ => true
  | _ => false

/-- Events the lanes' asynchronous work can emit. -/
def isLaneEv : Ev → Bool
  | .write _ _ => true
  | .unzipFile _ => true
  | .info _ => true
  | _ => false

/-- Two filesystems agreeing on everything the document processors read:
file entries below `base/tools` and all presets. -/
def toolsAgree (fs fs' : FS) : Prop :=
  (∀ p : Path, p.take 2 = ["base", "tools"] → assocFind p fs'.files = assocFind p fs.files) ∧
  fs'.presets = fs.presets

/-! ## Concrete sample data for evaluation -/

/-- A sample parsed source document. -/
def sampleParsed : ParsedDoc :=
  { title := "mip-demo", content := "demo body", deps := ["mip-a", "mip-b"] }

/-- A sample manifest record with no preview field. -/
def sampleRecord : ComponentRecord :=
  { name := "mip-demo", readme := ["README.md"], output := ["mip-demo.md"]
    preview := none }

/-- A sample manifest record with `preview: false`. -/
def sampleRecordNoPreview : ComponentRecord :=
  { name := "mip-still", readme := ["STILL.md"], output := ["mip-still.md"]
    preview := some false }

/-- A sample record whose source markdown file will be missing. -/
def sampleRecordMissing : ComponentRecord :=
  { name := "mip-gone", readme := ["GONE.md"], output := ["mip-gone.md"]
    preview := none }

/-- A filesystem where both acquisition directories exist and
`sampleRecord`'s and `sampleRecordNoPreview`'s markdown files are present. -/
def sampleFS : FS :=
  { dirs := [coreMasterPath, extensionsMasterPath]
    files := [(coreMasterPath ++ ["README.md"], .source sampleParsed),
              (coreMasterPath ++ ["STILL.md"], .source sampleParsed)]
    presets := [] }

/-- An empty filesystem. -/
def emptyFS : FS := { dirs := [], files := [], presets := [] }

/-- A configuration with two valid local lanes and empty manifests. -/
def cfgBothLocal : Config :=
  { core := some { flagPath := ["my-mip"], content := some [] }
    extensions := some { flagPath := ["my-ext"], content := some [] }
    coreRecs := []
    extensionsRecs := []
    remoteCore := []
    remoteExtensions := []
    fs := emptyFS }

/-- A configuration whose `--core` flag names a missing directory. -/
def cfgBadCore : Config :=
  { cfgBothLocal with core := some { flagPath := ["nope"], content := none } }

/-- A configuration with a valid local core lane and a remote extensions
lane. -/
def cfgLocalCoreRemoteExt : Config :=
  { cfgBothLocal with extensions := none }

/-- A configuration whose core manifest names a file absent from the copied
local directory. -/
def cfgMissingFile : Config :=
  { cfgBothLocal with coreRecs := [sampleRecordMissing] }

/-- Like `cfgMissingFile`, but with a remote extensions lane: the core lane
rejects in the microtask turn while the extensions download is still
pending. -/
def cfgMissingRemoteExt : Config :=
  { cfgMissingFile with extensions := none }

/-! ## Supporting lemmas -/

theorem assocFind_cons_ne {α : Type} {p q : Path} (a : α) (l : List (Path × α)) (h : q ≠ p) :
    assocFind p ((q, a) :: l) = assocFind p l := by
  simp [assocFind, h]

theorem take_two_append {mp : Path} (x : Path) (h : mp.take 2 = ["base", "tools"]) :
    (mp ++ x).take 2 = ["base", "tools"] := by
  have hlen : 2 ≤ mp.length := by
    have h2 := congrArg List.length h
    simp [List.length_take] at h2
    omega
  rw [List.take_append_of_le_length hlen, h]

theorem output_take_two (x : Path) :
    (BASE_URL ++ ["source"] ++ x).take 2 = ["base", "source"] := rfl

theorem output_ne_tools {p : Path} (x : Path) (h : p.take 2 = ["base", "tools"]) :
    BASE_URL ++ ["source"] ++ x ≠ p := by
  intro he
  rw [← he, output_take_two] at h
  exact absurd h (by decide)

theorem fileExists_writeFile_mono (fs : FS) (q : Path) (c : FileContent) (p : Path)
    (h : fileExists fs p = true) : fileExists (writeFile fs q c) p = true := by
  by_cases hq : q = p
  · simp [writeFile, fileExists, assocFind, hq]
  · simpa [writeFile, fileExists, assocFind, hq] using h

theorem processRecord_missing (mp : Path) (fs : FS) (val : ComponentRecord)
    (h : fileExists fs (mp ++ val.readme) = false) :
    processRecord mp fs val = (fs, [], some (pathStr (mp ++ val.readme) ++ " 不存在")) := by
  simp [processRecord, h]

theorem processRecord_found (mp : Path) (fs : FS) (val : ComponentRecord)
    (h : fileExists fs (mp ++ val.readme) = true) :
    processRecord mp fs val =
      (writeFile (mkdirpSync fs (BASE_URL ++ ["source"] ++ val.output).dropLast)
         (BASE_URL ++ ["source"] ++ val.output) (procDoc mp fs val),
       [Ev.write (BASE_URL ++ ["source"] ++ val.output) (procDoc mp fs val),
        Ev.info (pathStr val.output ++ " 同步成功")],
       none) := by
  simp [processRecord, h, procDoc]

theorem toolsAgree_refl (fs : FS) : toolsAgree fs fs := ⟨fun _ _ => rfl, rfl⟩

theorem toolsAgree_trans {a b c : FS} (h1 : toolsAgree a b) (h2 : toolsAgree b c) :
    toolsAgree a c :=
  ⟨fun p hp => (h2.1 p hp).trans (h1.1 p hp), h2.2.trans h1.2⟩

theorem toolsAgree_processRecord (mp : Path) (fs : FS) (val : ComponentRecord) :
    toolsAgree fs (processRecord mp fs val).1 := by
  by_cases h : fileExists fs (mp ++ val.readme)
  · rw [processRecord_found mp fs val h]
    refine ⟨fun p hp => ?_, rfl⟩
    simpa [writeFile, mkdirpSync] using
      assocFind_cons_ne (l := fs.files) (procDoc mp fs val) (output_ne_tools val.output hp)
  · rw [processRecord_missing mp fs val (by simpa using h)]
    exact toolsAgree_refl fs

theorem reads_agree (mp : Path) (hmp : mp.take 2 = ["base", "tools"]) {fs fs' : FS}
    (h : toolsAgree fs fs') (val : ComponentRecord) :
    fileExists fs' (mp ++ val.readme) = fileExists fs (mp ++ val.readme) ∧
    readFile fs' (mp ++ val.readme) = readFile fs (mp ++ val.readme) ∧
    readPreset fs' (mp ++ val.readme).dropLast = readPreset fs (mp ++ val.readme).dropLast := by
  have hf := h.1 (mp ++ val.readme) (take_two_append _ hmp)
  exact ⟨by simp [fileExists, hf], hf, by simp [readPreset, h.2]⟩

theorem processRecord_congr (mp : Path) (hmp : mp.take 2 = ["base", "tools"]) {fs fs' : FS}
    (h : toolsAgree fs fs') (val : ComponentRecord) :
    (processRecord mp fs' val).2 = (processRecord mp fs val).2 := by
  obtain ⟨h1, h2, h3⟩ := reads_agree mp hmp h val
  by_cases hex : fileExists fs (mp ++ val.readme) = true
  · have hex' : fileExists fs' (mp ++ val.readme) = true := by rw [h1]; exact hex
    have hd : procDoc mp fs' val = procDoc mp fs val := by simp [procDoc, h2, h3]
    rw [processRecord_found mp fs val hex, processRecord_found mp fs' val hex', hd]
  · have hex0 : fileExists fs (mp ++ val.readme) = false := by simpa using hex
    have hex' : fileExists fs' (mp ++ val.readme) = false := by rw [h1]; exact hex0
    rw [processRecord_missing mp fs val hex0, processRecord_missing mp fs' val hex']

theorem processRecords_spec (mp : Path) (hmp : mp.take 2 = ["base", "tools"]) :
    ∀ (recs : List ComponentRecord) (fs fs' : FS), toolsAgree fs fs' →
      (processRecords mp fs' recs).2.1 = (recs.map (recordBlock mp fs)).flatten ∧
      (processRecords mp fs' recs).2.2 =
        (firstMissing mp fs recs).map (fun r => pathStr (mp ++ r.readme) ++ " 不存在") ∧
      toolsAgree fs (processRecords mp fs' recs).1 := by
  intro recs
  induction recs with
  | nil => intro fs fs' h; exact ⟨rfl, rfl, h⟩
  | cons val rest ih =>
    intro fs fs' h
    have hA := processRecord_congr mp hmp h val
    have hB : toolsAgree fs (processRecord mp fs' val).1 :=
      toolsAgree_trans h (toolsAgree_processRecord mp fs' val)
    obtain ⟨ih1, ih2, ih3⟩ := ih fs (processRecord mp fs' val).1 hB
    have htr : (processRecord mp fs' val).2.1 = recordBlock mp fs val := by
      rw [recordBlock, ← hA]
    refine ⟨?_, ?_, ?_⟩
    · show (processRecord mp fs' val).2.1 ++
        (processRecords mp (processRecord mp fs' val).1 rest).2.1 = _
      rw [ih1, htr]
      simp
    · show mergeErr (processRecord mp fs' val).2.2
        (processRecords mp (processRecord mp fs' val).1 rest).2.2 = _
      rw [ih2]
      by_cases hex : fileExists fs (mp ++ val.readme) = true
      · have : (processRecord mp fs' val).2.2 = none := by
          rw [hA, processRecord_found mp fs val hex]
        rw [this]
        simp [mergeErr, firstMissing, List.find?, hex]
      · have hex0 : fileExists fs (mp ++ val.readme) = false := by simpa using hex
        have : (processRecord mp fs' val).2.2 =
            some (pathStr (mp ++ val.readme) ++ " 不存在") := by
          rw [hA, processRecord_missing mp fs val hex0]
        rw [this]
        simp [mergeErr, firstMissing, List.find?, hex0]
    · exact ih3

/-! ## Claim C7 -/

/-- Claim C7: if a group's acquisition directory does not exist when the
group's processor runs, the processor rejects immediately with a message
naming the directory, leaves the filesystem untouched and emits no events
— in particular it writes no output file for any record of the group. -/
theorem groupProcessor_rejects_when_dir_missing (mp : Path) (recs : List ComponentRecord)
    (fs : FS) (hdir : isDirectory fs mp = false) :
    groupProcessor mp recs fs = (fs, [], some (pathStr mp ++ " 不存在")) := by
  simp [groupProcessor, hdir]

/-- Witness for C7: the empty filesystem has no `tools/mip-master`
directory, and `coreProcessor` rejects accordingly. -/
theorem groupProcessor_rejects_when_dir_missing_witness :
    isDirectory emptyFS coreMasterPath = false ∧
    groupProcessor coreMasterPath [sampleRecord] emptyFS =
      (emptyFS, [], some (pathStr coreMasterPath ++ " 不存在")) :=
  ⟨rfl, groupProcessor_rejects_when_dir_missing coreMasterPath [sampleRecord] emptyFS rfl⟩

/-! ## Copy filter lemmas and Claim C8 -/

theorem copyForest_append (filter : Stat → Path → String → Bool) (rel : Path)
    (a b : List FTree) :
    copyForest filter rel (a ++ b) =
      ((copyForest filter rel a).1 ++ (copyForest filter rel b).1,
       (copyForest filter rel a).2 ++ (copyForest filter rel b).2) := by
  induction a with
  | nil => simp [copyForest]
  | cons t ts ih => simp [copyForest, ih]

mutual
theorem copyTree_prune (rel : Path) (t : FTree) :
    copyTree copyFilter rel t = copyForest keepAll rel (pruneTree t) := by
  cases t with
  | file name c => simp [copyTree, copyForest, pruneTree, copyFilter, keepAll]
  | dir name kids =>
    by_cases h : name = "node_modules"
    · simp [copyTree, copyForest, pruneTree, copyFilter, keepAll, h]
    · simp [copyTree, copyForest, pruneTree, copyFilter, keepAll, h,
        copyForest_prune (rel ++ [name]) kids]
theorem copyForest_prune (rel : Path) (ts : List FTree) :
    copyForest copyFilter rel ts = copyForest keepAll rel (pruneForest ts) := by
  cases ts with
  | nil => simp [copyForest, pruneForest]
  | cons t rest =>
    simp [copyForest, pruneForest, copyForest_append, copyTree_prune rel t,
      copyForest_prune rel rest]
end

/-- Claim C8: copying a local source directory into a group's temporary
working directory with the `copydir.sync` filter installs exactly the
unfiltered copy of the tree from which every directory named
`node_modules` has been removed, at any depth — such directory entries are
excluded wholesale and every other entry is kept. -/
theorem copydirSync_eq_install_pruned (fs : FS) (tree : List FTree) (dst : Path) :
    copydirSync fs tree dst = installTree fs (pruneForest tree) dst := by
  simp [copydirSync, installTree, copyForest_prune]

/-! ## Monotonicity of processing -/

theorem fileExists_processRecord_mono (mp : Path) (fs : FS) (val : ComponentRecord)
    (p : Path) (h : fileExists fs p = true) :
    fileExists (processRecord mp fs val).1 p = true := by
  by_cases hex : fileExists fs (mp ++ val.readme) = true
  · rw [processRecord_found mp fs val hex]
    exact fileExists_writeFile_mono _ _ _ _ h
  · rw [processRecord_missing mp fs val (by simpa using hex)]
    exact h

theorem fileExists_processRecords_mono (mp : Path) (recs : List ComponentRecord) :
    ∀ (fs : FS) (p : Path), fileExists fs p = true →
      fileExists (processRecords mp fs recs).1 p = true := by
  induction recs with
  | nil => intro fs p h; exact h
  | cons val rest ih =>
    intro fs p h
    exact ih _ _ (fileExists_processRecord_mono mp fs val p h)

theorem processRecords_writes (mp : Path) (hmp : mp.take 2 = ["base", "tools"])
    (recs : List ComponentRecord) :
    ∀ (fs : FS) (val : ComponentRecord), val ∈ recs →
      fileExists fs (mp ++ val.readme) = true →
      fileExists (processRecords mp fs recs).1 (BASE_URL ++ ["source"] ++ val.output) = true := by
  induction recs with
  | nil => intro fs val h; simp at h
  | cons v rest ih =>
    intro fs val hmem hex
    rcases List.mem_cons.mp hmem with rfl | hmem'
    · have h1 : fileExists (processRecord mp fs val).1
          (BASE_URL ++ ["source"] ++ val.output) = true := by
        rw [processRecord_found mp fs val hex]
        simp [writeFile, fileExists, assocFind]
      exact fileExists_processRecords_mono mp rest _ _ h1
    · have hagree := toolsAgree_processRecord mp fs v
      have hst := hagree.1 (mp ++ val.readme) (take_two_append _ hmp)
      have hstable : fileExists (processRecord mp fs v).1 (mp ++ val.readme) = true := by
        simpa [fileExists, hst] using hex
      exact ih _ val hmem' hstable

theorem block_subset_processRecords (mp : Path) (hmp : mp.take 2 = ["base", "tools"])
    (recs : List ComponentRecord) (fs : FS) (val : ComponentRecord) (hmem : val ∈ recs)
    (e : Ev) (he : e ∈ recordBlock mp fs val) :
    e ∈ (processRecords mp fs recs).2.1 := by
  obtain ⟨h1, _, _⟩ := processRecords_spec mp hmp recs fs fs (toolsAgree_refl fs)
  rw [h1]
  exact List.mem_flatten.mpr ⟨recordBlock mp fs val, List.mem_map_of_mem _ hmem, he⟩

/-! ## Claim C9 -/

/-- Claim C9: within a single group, records are processed strictly
sequentially in manifest order — the group's event trace is exactly the
concatenation, in manifest order, of each record's own contiguous block of
events, each block computed deterministically from the filesystem as the
group found it; a processed record's block is its output write followed by
its success log, and a missing record's block is empty. -/
theorem groupProcessor_sequential (mp : Path) (recs : List ComponentRecord) (fs : FS)
    (hmp : mp.take 2 = ["base", "tools"]) (hdir : isDirectory fs mp = true) :
    (groupProcessor mp recs fs).2.1 = (recs.map (recordBlock mp fs)).flatten ∧
    ∀ val ∈ recs, recordBlock mp fs val = [] ∨
      recordBlock mp fs val =
        [Ev.write (BASE_URL ++ ["source"] ++ val.output) (procDoc mp fs val),
         Ev.info (pathStr val.output ++ " 同步成功")] := by
  constructor
  · have h := (processRecords_spec mp hmp recs fs fs (toolsAgree_refl fs)).1
    simpa [groupProcessor, hdir] using h
  · intro val _
    by_cases hex : fileExists fs (mp ++ val.readme) = true
    · right
      rw [recordBlock, processRecord_found mp fs val hex]
    · left
      rw [recordBlock, processRecord_missing mp fs val (by simpa using hex)]

/-- Witness for C9: on a concrete two-record core manifest the trace is the
two blocks in manifest order. -/
theorem groupProcessor_sequential_witness :
    coreMasterPath.take 2 = ["base", "tools"] ∧
    isDirectory sampleFS coreMasterPath = true ∧
    ((groupProcessor coreMasterPath [sampleRecord, sampleRecordNoPreview] sampleFS).2.1 =
       ([sampleRecord, sampleRecordNoPreview].map (recordBlock coreMasterPath sampleFS)).flatten ∧
     ∀ val ∈ [sampleRecord, sampleRecordNoPreview],
       recordBlock coreMasterPath sampleFS val = [] ∨
       recordBlock coreMasterPath sampleFS val =
         [Ev.write (BASE_URL ++ ["source"] ++ val.output) (procDoc coreMasterPath sampleFS val),
          Ev.info (pathStr val.output ++ " 同步成功")]) :=
  ⟨rfl, rfl,
    groupProcessor_sequential coreMasterPath [sampleRecord, sampleRecordNoPreview] sampleFS
      rfl rfl⟩

/-! ## Claim C10 -/

/-- Claim C10: when record `k`'s source markdown file is missing, the
group's aggregate rejects with the message for the first missing file, yet
every record of the group whose source file exists is still fully
processed and its output file written. -/
theorem groupProcessor_missing_keeps_processing (mp : Path) (recs : List ComponentRecord)
    (fs : FS) (k : ComponentRecord) (hmp : mp.take 2 = ["base", "tools"])
    (hdir : isDirectory fs mp = true) (hk : k ∈ recs)
    (hkmiss : fileExists fs (mp ++ k.readme) = false) :
    (∃ r0, firstMissing mp fs recs = some r0 ∧
       (groupProcessor mp recs fs).2.2 = some (pathStr (mp ++ r0.readme) ++ " 不存在")) ∧
    ∀ val ∈ recs, fileExists fs (mp ++ val.readme) = true →
      fileExists (groupProcessor mp recs fs).1 (BASE_URL ++ ["source"] ++ val.output) = true := by
  have hg : groupProcessor mp recs fs = processRecords mp fs recs := by
    simp [groupProcessor, hdir]
  constructor
  · have h2 := (processRecords_spec mp hmp recs fs fs (toolsAgree_refl fs)).2.1
    have hsome : (firstMissing mp fs recs).isSome := by
      rw [firstMissing, List.find?_isSome]
      exact ⟨k, hk, by simp [hkmiss]⟩
    obtain ⟨r0, hr0⟩ := Option.isSome_iff_exists.mp hsome
    refine ⟨r0, hr0, ?_⟩
    rw [hg, h2, hr0]
    rfl
  · intro val hmem hex
    rw [hg]
    exact processRecords_writes mp hmp recs fs val hmem hex

/-- Witness for C10: with `sampleRecordMissing` inserted between two
present records, the aggregate rejects with the missing file's message and
both present records' outputs are written. -/
theorem groupProcessor_missing_keeps_processing_witness :
    coreMasterPath.take 2 = ["base", "tools"] ∧
    isDirectory sampleFS coreMasterPath = true ∧
    sampleRecordMissing ∈ [sampleRecord, sampleRecordMissing, sampleRecordNoPreview] ∧
    fileExists sampleFS (coreMasterPath ++ sampleRecordMissing.readme) = false ∧
    ((∃ r0, firstMissing coreMasterPath sampleFS
          [sampleRecord, sampleRecordMissing, sampleRecordNoPreview] = some r0 ∧
        (groupProcessor coreMasterPath [sampleRecord, sampleRecordMissing, sampleRecordNoPreview]
            sampleFS).2.2 = some (pathStr (coreMasterPath ++ r0.readme) ++ " 不存在")) ∧
      ∀ val ∈ [sampleRecord, sampleRecordMissing, sampleRecordNoPreview],
        fileExists sampleFS (coreMasterPath ++ val.readme) = true →
        fileExists (groupProcessor coreMasterPath
            [sampleRecord, sampleRecordMissing, sampleRecordNoPreview] sampleFS).1
          (BASE_URL ++ ["source"] ++ val.output) = true) :=
  ⟨rfl, rfl, by decide, rfl,
    groupProcessor_missing_keeps_processing coreMasterPath
      [sampleRecord, sampleRecordMissing, sampleRecordNoPreview] sampleFS
      sampleRecordMissing rfl rfl (by decide) rfl⟩

/-! ## Claim C1 -/

/-- Claim C1: for every record processed by the core or extensions
processor whose source file exists, the preview field of the serialized
settings block equals `true` when the record's preview flag is undefined
and `false` when the flag is `false`. -/
theorem processor_preview_default (mp : Path) (recs : List ComponentRecord) (fs : FS)
    (val : ComponentRecord) (hmp : mp = coreMasterPath ∨ mp = extensionsMasterPath)
    (hdir : isDirectory fs mp = true) (hmem : val ∈ recs)
    (hex : fileExists fs (mp ++ val.readme) = true) :
    ∃ d : OutputDoc,
      Ev.write (BASE_URL ++ ["source"] ++ val.output) (.output d) ∈
        (groupProcessor mp recs fs).2.1 ∧
      d.setting.preview = previewValue val.preview ∧
      (val.preview = none → d.setting.preview = true) ∧
      (val.preview = some false → d.setting.preview = false) := by
  have hmp2 : mp.take 2 = ["base", "tools"] := by rcases hmp with rfl | rfl <;> rfl
  have hg : groupProcessor mp recs fs = processRecords mp fs recs := by
    simp [groupProcessor, hdir]
  obtain ⟨d, hd, hdp⟩ : ∃ d, procDoc mp fs val = .output d ∧
      d.setting.preview = previewValue val.preview := ⟨_, rfl, rfl⟩
  refine ⟨d, ?_, hdp, ?_, ?_⟩
  · rw [hg, ← hd]
    refine block_subset_processRecords mp hmp2 recs fs val hmem _ ?_
    rw [recordBlock, processRecord_found mp fs val hex]
    simp
  · intro hnone
    rw [hdp, hnone]
    rfl
  · intro hfalse
    rw [hdp, hfalse]
    rfl

/-- Witness for C1: the sample record with no preview flag gets preview
`true` serialized. -/
theorem processor_preview_default_witness :
    isDirectory sampleFS coreMasterPath = true ∧
    sampleRecord ∈ [sampleRecord] ∧
    fileExists sampleFS (coreMasterPath ++ sampleRecord.readme) = true ∧
    (∃ d : OutputDoc,
      Ev.write (BASE_URL ++ ["source"] ++ sampleRecord.output) (.output d) ∈
        (groupProcessor coreMasterPath [sampleRecord] sampleFS).2.1 ∧
      d.setting.preview = previewValue sampleRecord.preview ∧
      (sampleRecord.preview = none → d.setting.preview = true) ∧
      (sampleRecord.preview = some false → d.setting.preview = false)) :=
  ⟨rfl, by decide, rfl,
    processor_preview_default coreMasterPath [sampleRecord] sampleFS sampleRecord
      (Or.inl rfl) rfl (by decide) rfl⟩

/-! ## Claim C2 -/

/-- Claim C2: a source markdown document that parses to title `T`, content
`B` and dependency list `D` is written to the record's output path as the
serialization of exactly `T`, `B` unchanged, and `D` verbatim in the
settings block, together with the record's name, the preset and the
preview flag. -/
theorem processor_roundtrip (mp : Path) (recs : List ComponentRecord) (fs : FS)
    (val : ComponentRecord) (pd : ParsedDoc)
    (hmp : mp = coreMasterPath ∨ mp = extensionsMasterPath)
    (hdir : isDirectory fs mp = true) (hmem : val ∈ recs)
    (hsrc : readFile fs (mp ++ val.readme) = some (.source pd)) :
    Ev.write (BASE_URL ++ ["source"] ++ val.output)
      (toMarkdown pd.title pd.content
        { deps := pd.deps, name := val.name
          preset := readPreset fs (mp ++ val.readme).dropLast
          preview := previewValue val.preview }) ∈
      (groupProcessor mp recs fs).2.1 := by
  have hmp2 : mp.take 2 = ["base", "tools"] := by rcases hmp with rfl | rfl <;> rfl
  have hg : groupProcessor mp recs fs = processRecords mp fs recs := by
    simp [groupProcessor, hdir]
  have hex : fileExists fs (mp ++ val.readme) = true := by
    have hs : assocFind (mp ++ val.readme) fs.files = some (.source pd) := hsrc
    simp [fileExists, hs]
  have hdoc : procDoc mp fs val =
      toMarkdown pd.title pd.content
        { deps := pd.deps, name := val.name
          preset := readPreset fs (mp ++ val.readme).dropLast
          preview := previewValue val.preview } := by
    rw [procDoc, hsrc]
    rfl
  rw [hg, ← hdoc]
  refine block_subset_processRecords mp hmp2 recs fs val hmem _ ?_
  rw [recordBlock, processRecord_found mp fs val hex]
  simp

/-- Witness for C2: the sample source document round-trips into the
written output document. -/
theorem processor_roundtrip_witness :
    isDirectory sampleFS coreMasterPath = true ∧
    sampleRecord ∈ [sampleRecord] ∧
    readFile sampleFS (coreMasterPath ++ sampleRecord.readme) = some (.source sampleParsed) ∧
    Ev.write (BASE_URL ++ ["source"] ++ sampleRecord.output)
      (toMarkdown sampleParsed.title sampleParsed.content
        { deps := sampleParsed.deps, name := sampleRecord.name
          preset := readPreset sampleFS (coreMasterPath ++ sampleRecord.readme).dropLast
          preview := previewValue sampleRecord.preview }) ∈
      (groupProcessor coreMasterPath [sampleRecord] sampleFS).2.1 :=
  ⟨rfl, by decide, rfl,
    processor_roundtrip coreMasterPath [sampleRecord] sampleFS sampleRecord sampleParsed
      (Or.inl rfl) rfl (by decide) rfl⟩

/-! ## Orchestrator lemmas -/

theorem setupCore_none (cfg : Config) (st : St) (h : cfg.core = none) :
    setupCore cfg st = .ok (emit st (Ev.downloadStart coreUrl coreZipPath), true) := by
  simp [setupCore, h]

theorem setupCore_local (cfg : Config) (st : St) (la : LocalSrc) (tree : List FTree)
    (h : cfg.core = some la) (hc : la.content = some tree) :
    setupCore cfg st = .ok
      ({ fs := copydirSync st.fs tree coreMasterPath
         trace := st.trace ++
           [Ev.info ("加载本地的 core 目录：" ++ pathStr (CWD ++ la.flagPath)),
            Ev.copyDir (CWD ++ la.flagPath) coreMasterPath] }, false) := by
  simp [setupCore, h, hc, emit]

theorem setupCore_bad (cfg : Config) (st : St) (la : LocalSrc)
    (h : cfg.core = some la) (hc : la.content = none) :
    setupCore cfg st = .error
      { trace := st.trace ++
          [Ev.error ("本地 core 目录不存在：" ++ pathStr (CWD ++ la.flagPath)), Ev.exit 1]
        fs := st.fs, exitCode := 1 } := by
  simp [setupCore, h, hc]

theorem setupExtensions_none (cfg : Config) (st : St) (h : cfg.extensions = none) :
    setupExtensions cfg st = .ok (emit st (Ev.downloadStart extensionsUrl extensionsZipPath), true) := by
  simp [setupExtensions, h]

theorem setupExtensions_local (cfg : Config) (st : St) (la : LocalSrc) (tree : List FTree)
    (h : cfg.extensions = some la) (hc : la.content = some tree) :
    setupExtensions cfg st = .ok
      ({ fs := copydirSync st.fs tree extensionsMasterPath
         trace := st.trace ++
           [Ev.info ("加载本地的 extensions 目录：" ++ pathStr (CWD ++ la.flagPath)),
            Ev.copyDir (CWD ++ la.flagPath) extensionsMasterPath] }, false) := by
  simp [setupExtensions, h, hc, emit]

theorem setupExtensions_bad (cfg : Config) (st : St) (la : LocalSrc)
    (h : cfg.extensions = some la) (hc : la.content = none) :
    setupExtensions cfg st = .error
      { trace := st.trace ++
          [Ev.error ("本地 extensions 目录不存在：" ++ pathStr (CWD ++ la.flagPath)), Ev.exit 1]
        fs := st.fs, exitCode := 1 } := by
  simp [setupExtensions, h, hc]

theorem setupCore_ok_trace (cfg : Config) (st st' : St) (b : Bool)
    (h : setupCore cfg st = .ok (st', b)) :
    ∃ add, st'.trace = st.trace ++ add ∧ ∀ e ∈ add, isSetupEv e = true ∧
      ∀ f, e ≠ Ev.downloadStart extensionsUrl f := by
  rcases hcore : cfg.core with _ | la
  · rw [setupCore_none cfg st hcore] at h
    obtain ⟨h1, _⟩ := Prod.mk.injEq .. ▸ Except.ok.inj h
    refine ⟨[Ev.downloadStart coreUrl coreZipPath], by rw [← h1]; rfl, ?_⟩
    intro e he
    simp at he
    subst he
    refine ⟨rfl, fun f hf => ?_⟩
    have : coreUrl = extensionsUrl := by injection hf
    exact absurd this (by decide)
  · rcases hcont : la.content with _ | tree
    · rw [setupCore_bad cfg st la hcore hcont] at h
      exact absurd h (by simp)
    · rw [setupCore_local cfg st la tree hcore hcont] at h
      obtain ⟨h1, _⟩ := Prod.mk.injEq .. ▸ Except.ok.inj h
      refine ⟨[Ev.info ("加载本地的 core 目录：" ++ pathStr (CWD ++ la.flagPath)),
               Ev.copyDir (CWD ++ la.flagPath) coreMasterPath], by rw [← h1], ?_⟩
      intro e he
      simp at he
      rcases he with rfl | rfl
      · exact ⟨rfl, fun f hf => by simp at hf⟩
      · exact ⟨rfl, fun f hf => by simp at hf⟩

theorem setupPhase_isOk (cfg : Config) (h1 : localOk cfg.core = true)
    (h2 : localOk cfg.extensions = true) :
    ∃ st : St, setupPhase cfg = .ok (st, cfg.core.isNone, cfg.extensions.isNone) := by
  have hcore : ∃ stc : St, setupCore cfg { fs := cfg.fs, trace := [] } =
      .ok (stc, cfg.core.isNone) := by
    rcases hc : cfg.core with _ | la
    · exact ⟨_, by rw [setupCore_none cfg _ hc]; rfl⟩
    · have : la.content.isSome = true := by simpa [localOk, hc] using h1
      obtain ⟨tree, htree⟩ := Option.isSome_iff_exists.mp this
      exact ⟨_, by rw [setupCore_local cfg _ la tree hc htree]; rfl⟩
  obtain ⟨stc, hstc⟩ := hcore
  have hext : ∃ ste : St, setupExtensions cfg stc = .ok (ste, cfg.extensions.isNone) := by
    rcases hc : cfg.extensions with _ | la
    · exact ⟨_, by rw [setupExtensions_none cfg _ hc]; rfl⟩
    · have : la.content.isSome = true := by simpa [localOk, hc] using h2
      obtain ⟨tree, htree⟩ := Option.isSome_iff_exists.mp this
      exact ⟨_, by rw [setupExtensions_local cfg _ la tree hc htree]; rfl⟩
  obtain ⟨ste, hste⟩ := hext
  refine ⟨{ fs := rimrafSync (emit ste (Ev.info ("开始同步组件文档!\n"))).fs examplesPath
            trace := (emit ste (Ev.info ("开始同步组件文档!\n"))).trace ++ [Ev.removeExamples] }, ?_⟩
  simp only [setupPhase, hstc, hste]

theorem setupPhase_eq_stage (cfg : Config) (h1 : localOk cfg.core = true)
    (h2 : localOk cfg.extensions = true) :
    setupPhase cfg = .ok (stageSt cfg, cfg.core.isNone, cfg.extensions.isNone) := by
  obtain ⟨st, hst⟩ := setupPhase_isOk cfg h1 h2
  rw [hst, stageSt, hst]

theorem run_eq_mainResult (cfg : Config) (h1 : localOk cfg.core = true)
    (h2 : localOk cfg.extensions = true) :
    run cfg = mainResult cfg := by
  rw [run, setupPhase_eq_stage cfg h1 h2]

theorem processRecords_events (mp : Path) (recs : List ComponentRecord) :
    ∀ (fs : FS), ∀ e ∈ (processRecords mp fs recs).2.1, isLaneEv e = true := by
  induction recs with
  | nil => intro fs e he; simp [processRecords] at he
  | cons val rest ih =>
    intro fs e he
    have hsplit : (processRecords mp fs (val :: rest)).2.1 =
        (processRecord mp fs val).2.1 ++
          (processRecords mp (processRecord mp fs val).1 rest).2.1 := rfl
    rw [hsplit] at he
    rcases List.mem_append.mp he with h | h
    · by_cases hex : fileExists fs (mp ++ val.readme) = true
      · rw [processRecord_found mp fs val hex] at h
        simp at h
        rcases h with rfl | rfl <;> rfl
      · rw [processRecord_missing mp fs val (by simpa using hex)] at h
        simp at h
    · exact ih _ e h

theorem groupProcessor_events (mp : Path) (recs : List ComponentRecord) (fs : FS) :
    ∀ e ∈ (groupProcessor mp recs fs).2.1, isLaneEv e = true := by
  intro e he
  rw [groupProcessor] at he
  by_cases hdir : isDirectory fs mp
  · simp [hdir] at he
    exact processRecords_events mp recs fs e he
  · simp [hdir] at he

theorem coreAcquire_trace (cfg : Config) (b : Bool) (st : St) :
    ∃ add, (coreAcquire cfg b st).trace = st.trace ++ add ∧
      ∀ e ∈ add, isLaneEv e = true := by
  cases b
  · exact ⟨[], by simp [coreAcquire], by simp⟩
  · refine ⟨[Ev.write coreZipPath (.other ("mip-master.zip")), Ev.unzipFile coreZipPath],
      by simp [coreAcquire], ?_⟩
    intro e he
    simp at he
    rcases he with rfl | rfl <;> rfl

theorem extensionsAcquire_trace (cfg : Config) (b : Bool) (st : St) :
    ∃ add, (extensionsAcquire cfg b st).trace = st.trace ++ add ∧
      ∀ e ∈ add, isLaneEv e = true := by
  cases b
  · exact ⟨[], by simp [extensionsAcquire], by simp⟩
  · refine ⟨[Ev.write extensionsZipPath (.other ("mip-extensions-master.zip")),
      Ev.unzipFile extensionsZipPath], by simp [extensionsAcquire], ?_⟩
    intro e he
    simp at he
    rcases he with rfl | rfl <;> rfl

theorem bCoreSt_trace (cfg : Config) :
    ∃ q, (bCoreSt cfg).trace = (stageSt cfg).trace ++ q ∧ ∀ e ∈ q, isLaneEv e = true := by
  by_cases hb : cfg.core.isNone
  · exact ⟨[], by simp [bCoreSt, bCore, hb], by simp⟩
  · refine ⟨(coreProcessor cfg.coreRecs (stageSt cfg).fs).2.1,
      by simp [bCoreSt, bCore, hb], ?_⟩
    intro e he
    exact groupProcessor_events coreMasterPath cfg.coreRecs _ e he

theorem bExtSt_trace (cfg : Config) :
    ∃ q, (bExtSt cfg).trace = (stageSt cfg).trace ++ q ∧ ∀ e ∈ q, isLaneEv e = true := by
  obtain ⟨q1, hq1, he1⟩ := bCoreSt_trace cfg
  by_cases hb : cfg.extensions.isNone
  · exact ⟨q1, by simp [bExtSt, bExt, hb, hq1], he1⟩
  · refine ⟨q1 ++ (extensionsProcessor cfg.extensionsRecs (bCoreSt cfg).fs).2.1, ?_, ?_⟩
    · simp [bExtSt, bExt, hb, hq1]
    · intro e he
      rcases List.mem_append.mp he with h | h
      · exact he1 e h
      · exact groupProcessor_events extensionsMasterPath cfg.extensionsRecs _ e h

theorem cCoreSt_trace (cfg : Config) :
    ∃ q, (cCoreSt cfg).trace = (stageSt cfg).trace ++ q ∧ ∀ e ∈ q, isLaneEv e = true := by
  obtain ⟨q1, hq1, he1⟩ := bExtSt_trace cfg
  by_cases hb : cfg.core.isNone
  · obtain ⟨a1, ha1, hae⟩ := coreAcquire_trace cfg true (bExtSt cfg)
    refine ⟨q1 ++ (a1 ++ (coreProcessor cfg.coreRecs (cCoreFS cfg)).2.1), ?_, ?_⟩
    · show (cCore cfg).1.trace = _
      simp only [cCore, hb, if_true]
      rw [ha1, hq1]
      simp
    · intro e he
      simp only [List.mem_append] at he
      rcases he with h | h | h
      · exact he1 e h
      · exact hae e h
      · exact groupProcessor_events coreMasterPath cfg.coreRecs _ e h
  · exact ⟨q1, by simp [cCoreSt, cCore, hb, hq1], he1⟩

theorem cExtSt_trace (cfg : Config) :
    ∃ q, (cExtSt cfg).trace = (stageSt cfg).trace ++ q ∧ ∀ e ∈ q, isLaneEv e = true := by
  obtain ⟨q1, hq1, he1⟩ := cCoreSt_trace cfg
  by_cases hb : cfg.extensions.isNone
  · obtain ⟨a1, ha1, hae⟩ := extensionsAcquire_trace cfg true (cCoreSt cfg)
    refine ⟨q1 ++ (a1 ++ (extensionsProcessor cfg.extensionsRecs (cExtFS cfg)).2.1), ?_, ?_⟩
    · show (cExt cfg).1.trace = _
      simp only [cExt, hb, if_true]
      rw [ha1, hq1]
      simp
    · intro e he
      simp only [List.mem_append] at he
      rcases he with h | h | h
      · exact he1 e h
      · exact hae e h
      · exact groupProcessor_events extensionsMasterPath cfg.extensionsRecs _ e h
  · exact ⟨q1, by simp [cExtSt, cExt, hb, hq1], he1⟩

theorem mainResult_shape (cfg : Config) :
    ∃ pre : List Ev,
      (∃ q, pre = (stageSt cfg).trace ++ q ∧ ∀ e ∈ q, isLaneEv e = true) ∧
      (((mainResult cfg).exitCode = 0 ∧
         (mainResult cfg).trace = pre ++ [Ev.clean, Ev.info ("\n同步成功!\n")]) ∨
       (∃ e, (mainResult cfg).exitCode = 1 ∧
         (mainResult cfg).trace = pre ++ [Ev.error e, Ev.clean, Ev.exit 1])) := by
  rcases hl : localErr cfg with _ | e
  · rcases hc : cCoreErr cfg with _ | e
    · rcases hx : cExtErr cfg with _ | e
      · exact ⟨(cExtSt cfg).trace, cExtSt_trace cfg,
          Or.inl ⟨by simp [mainResult, hl, hc, hx], by simp [mainResult, hl, hc, hx]⟩⟩
      · exact ⟨(cExtSt cfg).trace, cExtSt_trace cfg,
          Or.inr ⟨e, by simp [mainResult, hl, hc, hx, failResult],
            by simp [mainResult, hl, hc, hx, failResult]⟩⟩
    · exact ⟨(cCoreSt cfg).trace, cCoreSt_trace cfg,
        Or.inr ⟨e, by simp [mainResult, hl, hc, failResult],
          by simp [mainResult, hl, hc, failResult]⟩⟩
  · exact ⟨(bExtSt cfg).trace, bExtSt_trace cfg,
      Or.inr ⟨e, by simp [mainResult, hl, failResult],
        by simp [mainResult, hl, failResult]⟩⟩

theorem laneEv_not_clean {e : Ev} (h : isLaneEv e = true) :
    e ≠ Ev.clean ∧ e ≠ Ev.removeExamples := by
  cases e <;> simp [isLaneEv] at h ⊢

theorem setupEv_not_write {e : Ev} (h : isSetupEv e = true) :
    (∀ p c, e ≠ Ev.write p c) ∧ e ≠ Ev.clean ∧ e ≠ Ev.removeExamples := by
  cases e <;> simp [isSetupEv] at h ⊢

theorem setupExtensions_ok_trace (cfg : Config) (st st' : St) (b : Bool)
    (h : setupExtensions cfg st = .ok (st', b)) :
    ∃ add, st'.trace = st.trace ++ add ∧ ∀ e ∈ add, isSetupEv e = true := by
  rcases hext : cfg.extensions with _ | la
  · rw [setupExtensions_none cfg st hext] at h
    obtain ⟨h1, _⟩ := Prod.mk.injEq .. ▸ Except.ok.inj h
    refine ⟨[Ev.downloadStart extensionsUrl extensionsZipPath], by rw [← h1]; rfl, ?_⟩
    intro e he
    simp at he
    subst he
    rfl
  · rcases hcont : la.content with _ | tree
    · rw [setupExtensions_bad cfg st la hext hcont] at h
      exact absurd h (by simp)
    · rw [setupExtensions_local cfg st la tree hext hcont] at h
      obtain ⟨h1, _⟩ := Prod.mk.injEq .. ▸ Except.ok.inj h
      refine ⟨[Ev.info ("加载本地的 extensions 目录：" ++ pathStr (CWD ++ la.flagPath)),
               Ev.copyDir (CWD ++ la.flagPath) extensionsMasterPath], by rw [← h1], ?_⟩
      intro e he
      simp at he
      rcases he with rfl | rfl <;> rfl

theorem stageSt_shape (cfg : Config) (h1 : localOk cfg.core = true)
    (h2 : localOk cfg.extensions = true) :
    ∃ p : List Ev, (stageSt cfg).trace = p ++ [Ev.removeExamples] ∧
      ∀ e ∈ p, isSetupEv e = true := by
  have hstage := setupPhase_eq_stage cfg h1 h2
  rw [setupPhase] at hstage
  rcases hsc : setupCore cfg { fs := cfg.fs, trace := [] } with r | ⟨stc, bc⟩
  · simp [hsc] at hstage
  · simp only [hsc] at hstage
    rcases hse : setupExtensions cfg stc with r | ⟨ste, be⟩
    · simp [hse] at hstage
    · simp only [hse, Except.ok.injEq, Prod.mk.injEq] at hstage
      obtain ⟨hst, _⟩ := hstage
      obtain ⟨addc, haddc, hec⟩ := setupCore_ok_trace cfg _ stc bc hsc
      obtain ⟨adde, hadde, hee⟩ := setupExtensions_ok_trace cfg stc ste be hse
      refine ⟨addc ++ adde ++ [Ev.info ("开始同步组件文档!\n")], ?_, ?_⟩
      · rw [← hst]
        show (emit ste (Ev.info ("开始同步组件文档!\n"))).trace ++ [Ev.removeExamples] = _
        rw [emit, hadde, haddc]
        simp
      · intro e he
        simp only [List.mem_append, List.mem_singleton] at he
        rcases he with (h | h) | h
        · exact (hec e h).1
        · exact hee e h
        · subst h; rfl

/-! ## Cleanup lemmas -/

theorem assocFind_filter_none {α : Type} (p : Path) (l : List (Path × α))
    (f : Path × α → Bool) (hf : ∀ a : α, f (p, a) = false) :
    assocFind p (l.filter f) = none := by
  induction l with
  | nil => rfl
  | cons x rest ih =>
    rcases x with ⟨q, a⟩
    by_cases hq : q = p
    · subst hq
      simp [List.filter_cons, hf a, ih]
    · by_cases hfq : f (q, a) <;> simp [List.filter_cons, hfq, assocFind, hq, ih]

theorem assocFind_filter_mono {α : Type} (p : Path) (l : List (Path × α))
    (f : Path × α → Bool) (h : assocFind p l = none) :
    assocFind p (l.filter f) = none := by
  induction l with
  | nil => rfl
  | cons x rest ih =>
    rcases x with ⟨q, a⟩
    by_cases hq : q = p
    · subst hq
      simp [assocFind] at h
    · have h' : assocFind p rest = none := by simpa [assocFind, hq] using h
      by_cases hfq : f (q, a) <;> simp [List.filter_cons, hfq, assocFind, hq, ih h']

theorem underPath_self (q : Path) : underPath q q = true := by
  simp [underPath, List.take_length]

theorem fileExists_rimraf_under (fs : FS) (base p : Path) (h : underPath base p = true) :
    fileExists (rimrafSync fs base) p = false := by
  have hfind : assocFind p (fs.files.filter fun f => !underPath base f.1) = none :=
    assocFind_filter_none p _ _ (fun a => by simp [h])
  simp [fileExists, rimrafSync, hfind]

theorem fileExists_rimraf_mono (fs : FS) (base p : Path) (h : fileExists fs p = false) :
    fileExists (rimrafSync fs base) p = false := by
  have h0 : assocFind p fs.files = none := by
    rcases ha : assocFind p fs.files with _ | v
    · rfl
    · simp [fileExists, ha] at h
  have hfind : assocFind p (fs.files.filter fun f => !underPath base f.1) = none :=
    assocFind_filter_mono p _ _ h0
  simp [fileExists, rimrafSync, hfind]

theorem isDirectory_rimraf_under (fs : FS) (base p : Path) (h : underPath base p = true) :
    isDirectory (rimrafSync fs base) p = false := by
  simp only [isDirectory, rimrafSync]
  rw [Bool.eq_false_iff]
  intro hcon
  have hmem : p ∈ fs.dirs.filter (fun d => !underPath base d) := by
    simpa using hcon
  have := List.of_mem_filter hmem
  simp [h] at this

theorem isDirectory_rimraf_mono (fs : FS) (base p : Path)
    (h : isDirectory fs p = false) : isDirectory (rimrafSync fs base) p = false := by
  simp only [isDirectory, rimrafSync] at h ⊢
  rw [Bool.eq_false_iff] at h ⊢
  intro hcon
  have hmem : p ∈ fs.dirs ∧ underPath base p = false := by simpa using hcon
  exact h (by simpa using hmem.1)

theorem cleanFS_unfold (fs : FS) :
    cleanFS fs = rimrafSync (rimrafSync (rimrafSync (rimrafSync fs
      (TOOLS_PATH ++ ["mip-extensions-master.zip"])) (TOOLS_PATH ++ ["mip-extensions-master"]))
      (TOOLS_PATH ++ ["mip-master.zip"])) (TOOLS_PATH ++ ["mip-master"]) := rfl

theorem cleanFS_removes (fs : FS) (q : Path) (hq : q ∈ cleanTargets) (p : Path)
    (h : underPath q p = true) :
    fileExists (cleanFS fs) p = false ∧ isDirectory (cleanFS fs) p = false := by
  rw [cleanFS_unfold]
  simp only [cleanTargets, List.mem_cons, List.not_mem_nil, or_false] at hq
  rcases hq with rfl | rfl | rfl | rfl
  · exact ⟨fileExists_rimraf_mono _ _ _ (fileExists_rimraf_mono _ _ _
        (fileExists_rimraf_mono _ _ _ (fileExists_rimraf_under fs _ p h))),
      isDirectory_rimraf_mono _ _ _ (isDirectory_rimraf_mono _ _ _
        (isDirectory_rimraf_mono _ _ _ (isDirectory_rimraf_under fs _ p h)))⟩
  · exact ⟨fileExists_rimraf_mono _ _ _ (fileExists_rimraf_mono _ _ _
        (fileExists_rimraf_under _ _ p h)),
      isDirectory_rimraf_mono _ _ _ (isDirectory_rimraf_mono _ _ _
        (isDirectory_rimraf_under _ _ p h))⟩
  · exact ⟨fileExists_rimraf_mono _ _ _ (fileExists_rimraf_under _ _ p h),
      isDirectory_rimraf_mono _ _ _ (isDirectory_rimraf_under _ _ p h)⟩
  · exact ⟨fileExists_rimraf_under _ _ p h, isDirectory_rimraf_under _ _ p h⟩

/-! ## Early-exit run characterizations -/

theorem setupCore_isOk (cfg : Config) (st : St) (h1 : localOk cfg.core = true) :
    ∃ stc : St, setupCore cfg st = .ok (stc, cfg.core.isNone) := by
  rcases hc : cfg.core with _ | la
  · exact ⟨_, by rw [setupCore_none cfg _ hc]; rfl⟩
  · have : la.content.isSome = true := by simpa [localOk, hc] using h1
    obtain ⟨tree, htree⟩ := Option.isSome_iff_exists.mp this
    exact ⟨_, by rw [setupCore_local cfg _ la tree hc htree]; rfl⟩

theorem run_coreBad (cfg : Config) (la : LocalSrc) (h : cfg.core = some la)
    (hc : la.content = none) :
    run cfg = { trace := [Ev.error ("本地 core 目录不存在：" ++ pathStr (CWD ++ la.flagPath)),
                          Ev.exit 1]
                fs := cfg.fs, exitCode := 1 } := by
  simp [run, setupPhase, setupCore_bad cfg _ la h hc]

theorem run_extBad (cfg : Config) (la : LocalSrc) (h1 : localOk cfg.core = true)
    (h : cfg.extensions = some la) (hc : la.content = none) :
    ∃ (add : List Ev) (fsx : FS),
      (∀ e ∈ add, isSetupEv e = true ∧ ∀ f, e ≠ Ev.downloadStart extensionsUrl f) ∧
      run cfg = { trace := add ++ [Ev.error ("本地 extensions 目录不存在：" ++
                                pathStr (CWD ++ la.flagPath)), Ev.exit 1],
                  fs := fsx, exitCode := 1 } := by
  obtain ⟨stc, hstc⟩ := setupCore_isOk cfg { fs := cfg.fs, trace := [] } h1
  obtain ⟨add, hadd, hadde⟩ := setupCore_ok_trace cfg _ stc _ hstc
  refine ⟨add, stc.fs, hadde, ?_⟩
  have hadd' : stc.trace = add := by simpa using hadd
  simp [run, setupPhase, hstc, setupExtensions_bad cfg stc la h hc, hadd']

/-! ## Claim C3 -/

/-- Counterexample to claim C3 as stated: the core lane (a valid local
directory whose single manifest record's markdown file is missing) rejects
in the microtask turn, and the failure handler logs, cleans and exits
while the remote extensions lane is still pending — its download never
completes (no archive write, no extraction) and its processor never runs,
so cleanup did not wait for both group pipelines to settle. -/
theorem cleanup_runs_with_pending_lane :
    (run cfgMissingRemoteExt).trace =
      [Ev.info ("加载本地的 core 目录：" ++ pathStr (CWD ++ ["my-mip"])),
       Ev.copyDir (CWD ++ ["my-mip"]) coreMasterPath,
       Ev.downloadStart extensionsUrl extensionsZipPath,
       Ev.info ("开始同步组件文档!\n"),
       Ev.removeExamples,
       Ev.error (pathStr (coreMasterPath ++ ["GONE.md"]) ++ " 不存在"),
       Ev.clean,
       Ev.exit 1] ∧
    Ev.clean ∈ (run cfgMissingRemoteExt).trace ∧
    Ev.unzipFile extensionsZipPath ∉ (run cfgMissingRemoteExt).trace ∧
    (∀ c, Ev.write extensionsZipPath c ∉ (run cfgMissingRemoteExt).trace) := by
  refine ⟨rfl, by decide, by decide, ?_⟩
  intro c hm
  rw [show (run cfgMissingRemoteExt).trace =
      [Ev.info ("加载本地的 core 目录：" ++ pathStr (CWD ++ ["my-mip"])),
       Ev.copyDir (CWD ++ ["my-mip"]) coreMasterPath,
       Ev.downloadStart extensionsUrl extensionsZipPath,
       Ev.info ("开始同步组件文档!\n"),
       Ev.removeExamples,
       Ev.error (pathStr (coreMasterPath ++ ["GONE.md"]) ++ " 不存在"),
       Ev.clean,
       Ev.exit 1] from rfl] at hm
  simp at hm

/-- Amended claim C3: in every run that passes the eager CLI validation,
cleanup is invoked exactly once, when the aggregate settles: on success
immediately before the final success message is printed, and on failure in
the failure handler, after the error is logged and before the process
exits with status 1 — even when the other lane is still pending and never
settles. -/
theorem cleanup_once_at_settlement (cfg : Config) (h1 : localOk cfg.core = true)
    (h2 : localOk cfg.extensions = true) :
    (run cfg).trace.count Ev.clean = 1 ∧
    ∃ p : List Ev, Ev.clean ∉ p ∧
      (((run cfg).exitCode = 0 ∧
          (run cfg).trace = p ++ [Ev.clean, Ev.info ("\n同步成功!\n")]) ∨
       (∃ e, (run cfg).exitCode = 1 ∧
          (run cfg).trace = p ++ [Ev.error e, Ev.clean, Ev.exit 1])) := by
  rw [run_eq_mainResult cfg h1 h2]
  obtain ⟨p0, hp0, hp0e⟩ := stageSt_shape cfg h1 h2
  obtain ⟨pre, ⟨q, hpre, hqe⟩, hbranch⟩ := mainResult_shape cfg
  have hnoclean : Ev.clean ∉ pre := by
    rw [hpre, hp0]
    intro hmem
    rcases List.mem_append.mp hmem with hm | hm
    · rcases List.mem_append.mp hm with hm' | hm'
      · have := hp0e _ hm'
        simp [isSetupEv] at this
      · simp at hm'
    · have := hqe _ hm
      simp [isLaneEv] at this
  have hcnt : pre.count Ev.clean = 0 := List.count_eq_zero.mpr hnoclean
  rcases hbranch with ⟨hec, htr⟩ | ⟨e, hec, htr⟩
  · refine ⟨?_, pre, hnoclean, Or.inl ⟨hec, htr⟩⟩
    rw [htr]
    simp [List.count_append, hcnt]
  · refine ⟨?_, pre, hnoclean, Or.inr ⟨e, hec, htr⟩⟩
    rw [htr]
    simp [List.count_append, hcnt]

/-- Witness for the amended C3: the both-local configuration with empty
manifests runs to completion and cleans exactly once. -/
theorem cleanup_once_at_settlement_witness :
    localOk cfgBothLocal.core = true ∧ localOk cfgBothLocal.extensions = true ∧
    ((run cfgBothLocal).trace.count Ev.clean = 1 ∧
     ∃ p : List Ev, Ev.clean ∉ p ∧
       (((run cfgBothLocal).exitCode = 0 ∧
           (run cfgBothLocal).trace = p ++ [Ev.clean, Ev.info ("\n同步成功!\n")]) ∨
        (∃ e, (run cfgBothLocal).exitCode = 1 ∧
           (run cfgBothLocal).trace = p ++ [Ev.error e, Ev.clean, Ev.exit 1]))) :=
  ⟨rfl, rfl, cleanup_once_at_settlement cfgBothLocal rfl rfl⟩

theorem stageSt_launch (cfg : Config) (h1 : localOk cfg.core = true)
    (h2 : localOk cfg.extensions = true) :
    ∃ p : List Ev, (stageSt cfg).trace = p ++ [Ev.removeExamples] ∧
      (∀ e ∈ p, isSetupEv e = true) ∧
      (∀ la, cfg.core = some la → Ev.copyDir (CWD ++ la.flagPath) coreMasterPath ∈ p) ∧
      (cfg.core = none → Ev.downloadStart coreUrl coreZipPath ∈ p) ∧
      (∀ la, cfg.extensions = some la →
        Ev.copyDir (CWD ++ la.flagPath) extensionsMasterPath ∈ p) ∧
      (cfg.extensions = none → Ev.downloadStart extensionsUrl extensionsZipPath ∈ p) := by
  have hstage := setupPhase_eq_stage cfg h1 h2
  rw [setupPhase] at hstage
  rcases hcore : cfg.core with _ | la0
  · simp only [setupCore_none cfg _ hcore] at hstage
    rcases hext : cfg.extensions with _ | lb0
    · simp only [setupExtensions_none cfg _ hext, emit, Except.ok.injEq,
        Prod.mk.injEq] at hstage
      obtain ⟨hst, -⟩ := hstage
      refine ⟨[Ev.downloadStart coreUrl coreZipPath,
               Ev.downloadStart extensionsUrl extensionsZipPath,
               Ev.info ("开始同步组件文档!\n")], ?_, ?_, ?_, ?_, ?_, ?_⟩
      · rw [← hst]
        simp
      · intro e he
        simp at he
        rcases he with rfl | rfl | rfl <;> rfl
      · intro la hla
        simp [hcore] at hla
      · intro _
        simp
      · intro la hla
        simp [hext] at hla
      · intro _
        simp
    · have hsb : lb0.content.isSome = true := by simpa [localOk, hext] using h2
      obtain ⟨treeE, htreeE⟩ := Option.isSome_iff_exists.mp hsb
      simp only [setupExtensions_local cfg _ lb0 treeE hext htreeE, emit, Except.ok.injEq,
        Prod.mk.injEq] at hstage
      obtain ⟨hst, -⟩ := hstage
      refine ⟨[Ev.downloadStart coreUrl coreZipPath,
               Ev.info ("加载本地的 extensions 目录：" ++ pathStr (CWD ++ lb0.flagPath)),
               Ev.copyDir (CWD ++ lb0.flagPath) extensionsMasterPath,
               Ev.info ("开始同步组件文档!\n")], ?_, ?_, ?_, ?_, ?_, ?_⟩
      · rw [← hst]
        simp
      · intro e he
        simp at he
        rcases he with rfl | rfl | rfl | rfl <;> rfl
      · intro la hla
        simp [hcore] at hla
      · intro _
        simp
      · intro la hla
        obtain rfl := Option.some.inj hla
        simp
      · intro hn
        simp [hext] at hn
  · have hsa : la0.content.isSome = true := by simpa [localOk, hcore] using h1
    obtain ⟨treeC, htreeC⟩ := Option.isSome_iff_exists.mp hsa
    simp only [setupCore_local cfg _ la0 treeC hcore htreeC] at hstage
    rcases hext : cfg.extensions with _ | lb0
    · simp only [setupExtensions_none cfg _ hext, emit, Except.ok.injEq,
        Prod.mk.injEq] at hstage
      obtain ⟨hst, -⟩ := hstage
      refine ⟨[Ev.info ("加载本地的 core 目录：" ++ pathStr (CWD ++ la0.flagPath)),
               Ev.copyDir (CWD ++ la0.flagPath) coreMasterPath,
               Ev.downloadStart extensionsUrl extensionsZipPath,
               Ev.info ("开始同步组件文档!\n")], ?_, ?_, ?_, ?_, ?_, ?_⟩
      · rw [← hst]
        simp
      · intro e he
        simp at he
        rcases he with rfl | rfl | rfl | rfl <;> rfl
      · intro la hla
        obtain rfl := Option.some.inj hla
        simp
      · intro hn
        simp [hcore] at hn
      · intro la hla
        simp [hext] at hla
      · intro _
        simp
    · have hsb : lb0.content.isSome = true := by simpa [localOk, hext] using h2
      obtain ⟨treeE, htreeE⟩ := Option.isSome_iff_exists.mp hsb
      simp only [setupExtensions_local cfg _ lb0 treeE hext htreeE, emit, Except.ok.injEq,
        Prod.mk.injEq] at hstage
      obtain ⟨hst, -⟩ := hstage
      refine ⟨[Ev.info ("加载本地的 core 目录：" ++ pathStr (CWD ++ la0.flagPath)),
               Ev.copyDir (CWD ++ la0.flagPath) coreMasterPath,
               Ev.info ("加载本地的 extensions 目录：" ++ pathStr (CWD ++ lb0.flagPath)),
               Ev.copyDir (CWD ++ lb0.flagPath) extensionsMasterPath,
               Ev.info ("开始同步组件文档!\n")], ?_, ?_, ?_, ?_, ?_, ?_⟩
      · rw [← hst]
        simp
      · intro e he
        simp at he
        rcases he with rfl | rfl | rfl | rfl | rfl <;> rfl
      · intro la hla
        obtain rfl := Option.some.inj hla
        simp
      · intro hn
        simp [hcore] at hn
      · intro la hla
        obtain rfl := Option.some.inj hla
        simp
      · intro hn
        simp [hext] at hn

/-! ## Claim C6 -/

/-- Counterexample to claim C6 as stated: with a valid `--core` flag the
local copy into `tools/mip-master` — and the start of the extensions
archive download — happen during queue construction, strictly before the
`source/examples` directory is removed, so the removal does not precede
every acquisition. -/
theorem examples_removed_after_acquisition_started :
    (run cfgLocalCoreRemoteExt).trace.take 5 =
      [Ev.info ("加载本地的 core 目录：" ++ pathStr (CWD ++ ["my-mip"])),
       Ev.copyDir (CWD ++ ["my-mip"]) coreMasterPath,
       Ev.downloadStart extensionsUrl extensionsZipPath,
       Ev.info ("开始同步组件文档!\n"),
       Ev.removeExamples] ∧
    (run cfgLocalCoreRemoteExt).trace[1]? =
      some (Ev.copyDir (CWD ++ ["my-mip"]) coreMasterPath) ∧
    (run cfgLocalCoreRemoteExt).trace[4]? = some Ev.removeExamples := by
  refine ⟨?_, ?_, ?_⟩ <;> rfl

/-- Amended claim C6: in every run that passes the eager CLI validation,
the previously generated `source/examples` directory is removed exactly
once, after queue construction has already launched acquisition for both
lanes — the local copies have completed and the remote downloads have
started before the removal — but still before any document processing or
file write occurs; a run stopped by the eager CLI-validation exit never
reaches the removal. -/
theorem examples_removed_before_writes (cfg : Config) :
    (localOk cfg.core = true → localOk cfg.extensions = true →
      ∃ p q : List Ev, (run cfg).trace = p ++ Ev.removeExamples :: q ∧
        (run cfg).trace.count Ev.removeExamples = 1 ∧
        (∀ pp c, Ev.write pp c ∉ p) ∧
        (∀ la, cfg.core = some la → Ev.copyDir (CWD ++ la.flagPath) coreMasterPath ∈ p) ∧
        (cfg.core = none → Ev.downloadStart coreUrl coreZipPath ∈ p) ∧
        (∀ la, cfg.extensions = some la →
          Ev.copyDir (CWD ++ la.flagPath) extensionsMasterPath ∈ p) ∧
        (cfg.extensions = none → Ev.downloadStart extensionsUrl extensionsZipPath ∈ p)) ∧
    (∀ la, cfg.core = some la → la.content = none →
      Ev.removeExamples ∉ (run cfg).trace) ∧
    (∀ la, localOk cfg.core = true → cfg.extensions = some la → la.content = none →
      Ev.removeExamples ∉ (run cfg).trace) := by
  refine ⟨?_, ?_, ?_⟩
  · intro h1 h2
    rw [run_eq_mainResult cfg h1 h2]
    obtain ⟨p0, hp0, hp0e, hlc, hrc, hle, hre⟩ := stageSt_launch cfg h1 h2
    obtain ⟨pre, ⟨q0, hpre, hq0e⟩, hbranch⟩ := mainResult_shape cfg
    have hnop : Ev.removeExamples ∉ p0 := fun hm => by
      have := hp0e _ hm
      simp [isSetupEv] at this
    have hnoq : Ev.removeExamples ∉ q0 := fun hm => by
      have := hq0e _ hm
      simp [isLaneEv] at this
    have hcp : p0.count Ev.removeExamples = 0 := List.count_eq_zero.mpr hnop
    have hcq : q0.count Ev.removeExamples = 0 := List.count_eq_zero.mpr hnoq
    have hwrite : ∀ pp c, Ev.write pp c ∉ p0 := fun pp c hm => by
      have := hp0e _ hm
      simp [isSetupEv] at this
    have hpre' : pre = p0 ++ Ev.removeExamples :: q0 := by
      rw [hpre, hp0]
      simp
    rcases hbranch with ⟨hec, htr⟩ | ⟨e, hec, htr⟩
    · refine ⟨p0, q0 ++ [Ev.clean, Ev.info ("\n同步成功!\n")], ?_, ?_,
        hwrite, hlc, hrc, hle, hre⟩
      · rw [htr, hpre']
        simp
      · rw [htr, hpre']
        simp [List.count_append, List.count_cons, hcp, hcq]
    · refine ⟨p0, q0 ++ [Ev.error e, Ev.clean, Ev.exit 1], ?_, ?_,
        hwrite, hlc, hrc, hle, hre⟩
      · rw [htr, hpre']
        simp
      · rw [htr, hpre']
        simp [List.count_append, List.count_cons, hcp, hcq]
  · intro la hla hc
    rw [run_coreBad cfg la hla hc]
    simp
  · intro la h1 hla hc
    obtain ⟨add, fsx, hadde, hrun⟩ := run_extBad cfg la h1 hla hc
    rw [hrun]
    intro hm
    simp only [List.mem_append] at hm
    rcases hm with hm | hm
    · have := (hadde _ hm).1
      simp [isSetupEv] at this
    · simp at hm

/-- Witness for the amended C6: the both-local configuration removes the
examples directory once, after both local copies and before any write; the
bad-core configuration never reaches the removal. -/
theorem examples_removed_before_writes_witness :
    (localOk cfgBothLocal.core = true ∧ localOk cfgBothLocal.extensions = true ∧
     ∃ p q : List Ev, (run cfgBothLocal).trace = p ++ Ev.removeExamples :: q ∧
       (run cfgBothLocal).trace.count Ev.removeExamples = 1 ∧
       (∀ pp c, Ev.write pp c ∉ p) ∧
       (∀ la, cfgBothLocal.core = some la →
         Ev.copyDir (CWD ++ la.flagPath) coreMasterPath ∈ p) ∧
       (cfgBothLocal.core = none → Ev.downloadStart coreUrl coreZipPath ∈ p) ∧
       (∀ la, cfgBothLocal.extensions = some la →
         Ev.copyDir (CWD ++ la.flagPath) extensionsMasterPath ∈ p) ∧
       (cfgBothLocal.extensions = none →
         Ev.downloadStart extensionsUrl extensionsZipPath ∈ p)) ∧
    (cfgBadCore.core = some { flagPath := ["nope"], content := none } ∧
     Ev.removeExamples ∉ (run cfgBadCore).trace) :=
  ⟨⟨rfl, rfl, (examples_removed_before_writes cfgBothLocal).1 rfl rfl⟩,
   ⟨rfl, (examples_removed_before_writes cfgBadCore).2.1
      { flagPath := ["nope"], content := none } rfl rfl⟩⟩

/-! ## Claim C4 -/

/-- Claim C4: when a local-path flag (`--core`, or `--extensions` with a
valid core flag) names a missing or non-directory path, the run prints an
error message containing that path and exits with status 1, before any
document processing is attempted (no file is ever written) and without
ever starting the remote download for that flag's group. -/
theorem bad_local_flag_exits_early (cfg : Config) (la : LocalSrc)
    (hbad : (cfg.core = some la ∧ la.content = none) ∨
            (localOk cfg.core = true ∧ cfg.extensions = some la ∧ la.content = none)) :
    (run cfg).exitCode = 1 ∧
    (∃ s, Ev.error (s ++ pathStr (CWD ++ la.flagPath)) ∈ (run cfg).trace) ∧
    (∃ p, (run cfg).trace = p ++ [Ev.exit 1]) ∧
    (∀ pp c, Ev.write pp c ∉ (run cfg).trace) ∧
    (cfg.core = some la → la.content = none →
      ∀ f, Ev.downloadStart coreUrl f ∉ (run cfg).trace) ∧
    (cfg.extensions = some la → la.content = none →
      ∀ f, Ev.downloadStart extensionsUrl f ∉ (run cfg).trace) := by
  rcases hbad with ⟨h, hc⟩ | ⟨h1, h, hc⟩
  · rw [run_coreBad cfg la h hc]
    refine ⟨rfl, ⟨"本地 core 目录不存在：", by simp⟩,
      ⟨[Ev.error ("本地 core 目录不存在：" ++ pathStr (CWD ++ la.flagPath))], rfl⟩,
      by simp, ?_, ?_⟩
    · intro _ _ f
      simp
    · intro _ _ f
      simp
  · obtain ⟨add, fsx, hadde, hrun⟩ := run_extBad cfg la h1 h hc
    rw [hrun]
    refine ⟨rfl, ⟨"本地 extensions 目录不存在：", by simp⟩,
      ⟨add ++ [Ev.error ("本地 extensions 目录不存在：" ++ pathStr (CWD ++ la.flagPath))],
       by simp⟩, ?_, ?_, ?_⟩
    · intro pp c hm
      simp only [List.mem_append] at hm
      rcases hm with hm | hm
      · have := (hadde _ hm).1
        simp [isSetupEv] at this
      · simp at hm
    · intro hcore hnone f
      rw [hcore] at h1
      simp [localOk, hnone] at h1
    · intro _ _ f hm
      simp only [List.mem_append] at hm
      rcases hm with hm | hm
      · exact (hadde _ hm).2 f rfl
      · simp at hm

/-- Witness for C4: the configuration whose `--core` flag names a missing
directory exits with status 1 and the error naming the path. -/
theorem bad_local_flag_exits_early_witness :
    ((cfgBadCore.core = some { flagPath := ["nope"], content := none } ∧
      ({ flagPath := ["nope"], content := none } : LocalSrc).content = none) ∨
     (localOk cfgBadCore.core = true ∧
      cfgBadCore.extensions = some { flagPath := ["nope"], content := none } ∧
      ({ flagPath := ["nope"], content := none } : LocalSrc).content = none)) ∧
    ((run cfgBadCore).exitCode = 1 ∧
     (∃ s, Ev.error (s ++ pathStr (CWD ++ ["nope"])) ∈ (run cfgBadCore).trace) ∧
     (∃ p, (run cfgBadCore).trace = p ++ [Ev.exit 1]) ∧
     (∀ pp c, Ev.write pp c ∉ (run cfgBadCore).trace) ∧
     (cfgBadCore.core = some { flagPath := ["nope"], content := none } →
       ({ flagPath := ["nope"], content := none } : LocalSrc).content = none →
       ∀ f, Ev.downloadStart coreUrl f ∉ (run cfgBadCore).trace) ∧
     (cfgBadCore.extensions = some { flagPath := ["nope"], content := none } →
       ({ flagPath := ["nope"], content := none } : LocalSrc).content = none →
       ∀ f, Ev.downloadStart extensionsUrl f ∉ (run cfgBadCore).trace)) :=
  ⟨Or.inl ⟨rfl, rfl⟩,
    bad_local_flag_exits_early cfgBadCore { flagPath := ["nope"], content := none }
      (Or.inl ⟨rfl, rfl⟩)⟩

/-! ## Claim C5 -/

theorem groupProcessor_first_missing (mp : Path) (hmp : mp.take 2 = ["base", "tools"])
    (recs : List ComponentRecord) (fs : FS) (r : ComponentRecord) (hr : r ∈ recs)
    (hdir : isDirectory fs mp = true)
    (hmiss : fileExists fs (mp ++ r.readme) = false) :
    ∃ r0, r0 ∈ recs ∧ fileExists fs (mp ++ r0.readme) = false ∧
      (groupProcessor mp recs fs).2.2 = some (pathStr (mp ++ r0.readme) ++ " 不存在") := by
  have hspec := processRecords_spec mp hmp recs fs fs (toolsAgree_refl _)
  have hsome : (firstMissing mp fs recs).isSome := by
    rw [firstMissing, List.find?_isSome]
    exact ⟨r, hr, by simp [hmiss]⟩
  obtain ⟨r0, hr0⟩ := Option.isSome_iff_exists.mp hsome
  have hr0f : recs.find? (fun x => !fileExists fs (mp ++ x.readme)) = some r0 := hr0
  refine ⟨r0, List.mem_of_find?_eq_some hr0f, by simpa using List.find?_some hr0f, ?_⟩
  have hg : groupProcessor mp recs fs = processRecords mp fs recs := by
    simp [groupProcessor, hdir]
  rw [hg, hspec.2.1, hr0]
  rfl

theorem failResult_spec (st : St) (e : String) (cfg : Config)
    (h1 : localOk cfg.core = true) (h2 : localOk cfg.extensions = true)
    (hm : mainResult cfg = failResult st e) :
    (run cfg).exitCode = 1 ∧
    (∃ p e2, (run cfg).trace = p ++ [Ev.error e2, Ev.clean, Ev.exit 1]) ∧
    (∀ q ∈ cleanTargets, isDirectory (run cfg).fs q = false ∧
       ∀ pp, underPath q pp = true → fileExists (run cfg).fs pp = false) := by
  rw [run_eq_mainResult cfg h1 h2, hm]
  refine ⟨rfl, ⟨st.trace, e, rfl⟩, ?_⟩
  intro q hq
  exact ⟨(cleanFS_removes _ q hq q (underPath_self q)).2,
    fun pp hpp => (cleanFS_removes _ q hq pp hpp).1⟩

/-- Claim C5: if a manifest record of either group names a source markdown
file that does not exist when that group's processor runs (in the
microtask turn for a local lane; in the macrotask turn, when reached, for
a remote lane), the owning group's processor promise rejects with a
message naming the first missing file of the group, cleanup still runs
before the process exits with status 1, and afterwards none of the four
temporary acquisition paths (archives or extracted directories) exist. -/
theorem missing_source_rejects_and_cleans (cfg : Config) (r : ComponentRecord)
    (h1 : localOk cfg.core = true) (h2 : localOk cfg.extensions = true)
    (hgroup :
      (cfg.core.isNone = false ∧ r ∈ cfg.coreRecs ∧
         isDirectory (stageSt cfg).fs coreMasterPath = true ∧
         fileExists (stageSt cfg).fs (coreMasterPath ++ r.readme) = false) ∨
      (cfg.core.isNone = true ∧ localErr cfg = none ∧ r ∈ cfg.coreRecs ∧
         isDirectory (cCoreFS cfg) coreMasterPath = true ∧
         fileExists (cCoreFS cfg) (coreMasterPath ++ r.readme) = false) ∨
      (cfg.extensions.isNone = false ∧ r ∈ cfg.extensionsRecs ∧
         isDirectory (bCoreSt cfg).fs extensionsMasterPath = true ∧
         fileExists (bCoreSt cfg).fs (extensionsMasterPath ++ r.readme) = false) ∨
      (cfg.extensions.isNone = true ∧ localErr cfg = none ∧ cCoreErr cfg = none ∧
         r ∈ cfg.extensionsRecs ∧
         isDirectory (cExtFS cfg) extensionsMasterPath = true ∧
         fileExists (cExtFS cfg) (extensionsMasterPath ++ r.readme) = false)) :
    (∃ fs1 r0,
       (r0 ∈ cfg.coreRecs ∧ fileExists fs1 (coreMasterPath ++ r0.readme) = false ∧
          (coreProcessor cfg.coreRecs fs1).2.2 =
            some (pathStr (coreMasterPath ++ r0.readme) ++ " 不存在")) ∨
       (r0 ∈ cfg.extensionsRecs ∧
          fileExists fs1 (extensionsMasterPath ++ r0.readme) = false ∧
          (extensionsProcessor cfg.extensionsRecs fs1).2.2 =
            some (pathStr (extensionsMasterPath ++ r0.readme) ++ " 不存在"))) ∧
    (run cfg).exitCode = 1 ∧
    (∃ p e, (run cfg).trace = p ++ [Ev.error e, Ev.clean, Ev.exit 1]) ∧
    (∀ q ∈ cleanTargets, isDirectory (run cfg).fs q = false ∧
       ∀ pp, underPath q pp = true → fileExists (run cfg).fs pp = false) := by
  rcases hgroup with ⟨hlocal, hr, hdir, hmiss⟩ | ⟨hrem, hnoloc, hr, hdir, hmiss⟩ |
    ⟨hlocal, hr, hdir, hmiss⟩ | ⟨hrem, hnoloc, hnoc, hr, hdir, hmiss⟩
  · obtain ⟨r0, hr0mem, hr0miss, herr⟩ := groupProcessor_first_missing coreMasterPath rfl
      cfg.coreRecs (stageSt cfg).fs r hr hdir hmiss
    have herrc : (coreProcessor cfg.coreRecs (stageSt cfg).fs).2.2 =
        some (pathStr (coreMasterPath ++ r0.readme) ++ " 不存在") := herr
    have hb : bCoreErr cfg = some (pathStr (coreMasterPath ++ r0.readme) ++ " 不存在") := by
      simp [bCoreErr, bCore, hlocal, herrc]
    have hl : localErr cfg = some (pathStr (coreMasterPath ++ r0.readme) ++ " 不存在") := by
      simp [localErr, hb, mergeErr]
    have hm : mainResult cfg = failResult (bExtSt cfg)
        (pathStr (coreMasterPath ++ r0.readme) ++ " 不存在") := by
      simp [mainResult, hl]
    obtain ⟨hx, hy, hz⟩ := failResult_spec _ _ cfg h1 h2 hm
    exact ⟨⟨(stageSt cfg).fs, r0, Or.inl ⟨hr0mem, hr0miss, herrc⟩⟩, hx, hy, hz⟩
  · obtain ⟨r0, hr0mem, hr0miss, herr⟩ := groupProcessor_first_missing coreMasterPath rfl
      cfg.coreRecs (cCoreFS cfg) r hr hdir hmiss
    have herrc : (coreProcessor cfg.coreRecs (cCoreFS cfg)).2.2 =
        some (pathStr (coreMasterPath ++ r0.readme) ++ " 不存在") := herr
    have hc : cCoreErr cfg = some (pathStr (coreMasterPath ++ r0.readme) ++ " 不存在") := by
      simp [cCoreErr, cCore, hrem, herrc]
    have hm : mainResult cfg = failResult (cCoreSt cfg)
        (pathStr (coreMasterPath ++ r0.readme) ++ " 不存在") := by
      simp [mainResult, hnoloc, hc]
    obtain ⟨hx, hy, hz⟩ := failResult_spec _ _ cfg h1 h2 hm
    exact ⟨⟨cCoreFS cfg, r0, Or.inl ⟨hr0mem, hr0miss, herrc⟩⟩, hx, hy, hz⟩
  · obtain ⟨r0, hr0mem, hr0miss, herr⟩ := groupProcessor_first_missing extensionsMasterPath
      rfl cfg.extensionsRecs (bCoreSt cfg).fs r hr hdir hmiss
    have herrc : (extensionsProcessor cfg.extensionsRecs (bCoreSt cfg).fs).2.2 =
        some (pathStr (extensionsMasterPath ++ r0.readme) ++ " 不存在") := herr
    have hb : bExtErr cfg =
        some (pathStr (extensionsMasterPath ++ r0.readme) ++ " 不存在") := by
      simp [bExtErr, bExt, hlocal, herrc]
    have hfail : ∃ e, mainResult cfg = failResult (bExtSt cfg) e := by
      rcases hbc : bCoreErr cfg with _ | e1
      · exact ⟨pathStr (extensionsMasterPath ++ r0.readme) ++ " 不存在",
          by simp [mainResult, localErr, hbc, hb, mergeErr]⟩
      · exact ⟨e1, by simp [mainResult, localErr, hbc, mergeErr]⟩
    obtain ⟨e0, hm⟩ := hfail
    obtain ⟨hx, hy, hz⟩ := failResult_spec _ _ cfg h1 h2 hm
    exact ⟨⟨(bCoreSt cfg).fs, r0, Or.inr ⟨hr0mem, hr0miss, herrc⟩⟩, hx, hy, hz⟩
  · obtain ⟨r0, hr0mem, hr0miss, herr⟩ := groupProcessor_first_missing extensionsMasterPath
      rfl cfg.extensionsRecs (cExtFS cfg) r hr hdir hmiss
    have herrc : (extensionsProcessor cfg.extensionsRecs (cExtFS cfg)).2.2 =
        some (pathStr (extensionsMasterPath ++ r0.readme) ++ " 不存在") := herr
    have hxerr : cExtErr cfg =
        some (pathStr (extensionsMasterPath ++ r0.readme) ++ " 不存在") := by
      simp [cExtErr, cExt, hrem, herrc]
    have hm : mainResult cfg = failResult (cExtSt cfg)
        (pathStr (extensionsMasterPath ++ r0.readme) ++ " 不存在") := by
      simp [mainResult, hnoloc, hnoc, hxerr]
    obtain ⟨hx, hy, hz⟩ := failResult_spec _ _ cfg h1 h2 hm
    exact ⟨⟨cExtFS cfg, r0, Or.inr ⟨hr0mem, hr0miss, herrc⟩⟩, hx, hy, hz⟩

/-- Witness for C5: a run whose copied core directory lacks the single
manifest record's markdown file rejects, cleans and exits 1, leaving no
temporary path behind. -/
theorem missing_source_rejects_and_cleans_witness :
    localOk cfgMissingFile.core = true ∧ localOk cfgMissingFile.extensions = true ∧
    (cfgMissingFile.core.isNone = false ∧ sampleRecordMissing ∈ cfgMissingFile.coreRecs ∧
     isDirectory (stageSt cfgMissingFile).fs coreMasterPath = true ∧
     fileExists (stageSt cfgMissingFile).fs
       (coreMasterPath ++ sampleRecordMissing.readme) = false) ∧
    ((∃ fs1 r0,
       (r0 ∈ cfgMissingFile.coreRecs ∧
          fileExists fs1 (coreMasterPath ++ r0.readme) = false ∧
          (coreProcessor cfgMissingFile.coreRecs fs1).2.2 =
            some (pathStr (coreMasterPath ++ r0.readme) ++ " 不存在")) ∨
       (r0 ∈ cfgMissingFile.extensionsRecs ∧
          fileExists fs1 (extensionsMasterPath ++ r0.readme) = false ∧
          (extensionsProcessor cfgMissingFile.extensionsRecs fs1).2.2 =
            some (pathStr (extensionsMasterPath ++ r0.readme) ++ " 不存在"))) ∧
     (run cfgMissingFile).exitCode = 1 ∧
     (∃ p e, (run cfgMissingFile).trace = p ++ [Ev.error e, Ev.clean, Ev.exit 1]) ∧
     (∀ q ∈ cleanTargets, isDirectory (run cfgMissingFile).fs q = false ∧
       ∀ pp, underPath q pp = true → fileExists (run cfgMissingFile).fs pp = false)) :=
  ⟨rfl, rfl, ⟨rfl, by decide, rfl, rfl⟩,
    missing_source_rejects_and_cleans cfgMissingFile sampleRecordMissing rfl rfl
      (Or.inl ⟨rfl, by decide, rfl, rfl⟩)⟩

end SyncComponents
